import Mathlib

/-!
Shallow embedding of the XCacheSystem cache library (src/XLRUCache.h,
src/XLFUCache.h, src/XWTinyLFUCache.h, src/XArcCache/*, src/XAdaptiveCache.h)
and proofs about the claims of its specification.

Conventions of the embedding:
* C++ `std::unordered_map<Key, NodePtr>` together with an intrusive doubly
  linked list is modelled by an association list `List (K × ...)` whose order
  is the list order.  For the LRU primitive the front of the list is the
  least-recently-used entry (`dummyHead->next`) and the back the most recent;
  for the ARC LRU-part the front is the most recent (`mainHead->next`).
* Machine integers (`int`, `size_t`, `uint8_t`, `uint32_t`) are modelled by
  `Nat`, except the LFU statistics counters (`curTotalFreq`,
  `curAverageFreq`), which are C++ `int` and are modelled by `Int` with
  truncating division `Int.tdiv`, which agrees with the C++ division on the
  non-negative values reached in the states our theorems talk about.
* The `double agingFactor` of the LFU engine is modelled by an exact
  rational `afNum / afDen` with floor division; for the factors exercised
  here (1/2, 4/5, 9/10) the C++ `static_cast<int>(freq * agingFactor)`
  computes exactly `freq * afNum / afDen` in `Nat` floor arithmetic.
  Likewise the W-TinyLFU `windowRatio` and the LRU-K `historyRatio` are
  modelled as exact rationals.
* The Count-Min Sketch's per-row hash (`std::hash` xor a random seed)
  is modelled by an arbitrary function `K → Nat` fixed per row at
  construction, as the seeds are.
* Hit-rate arithmetic of the adaptive coordinator (C++ `double`) is
  modelled with exact rationals `ℚ`.
* Mutexes are dropped: every public call runs atomically, which is exactly
  the behaviour the source obtains by holding the engine lock for the whole
  call.
-/

set_option linter.unusedSectionVars false

namespace XCache

/-- Association-list lookup, first match wins (models `unordered_map::find`,
`std::map::find`). -/
def alookup {K : Type} {β : Type} [DecidableEq K] : List (K × β) → K → Option β
  | [], _ => none
  | e :: t, k => if e.1 = k then some e.2 else alookup t k

/-- Remove the first entry with the given key (models `map::erase` combined
with unlinking the node from its list). -/
def aerase {K : Type} {β : Type} [DecidableEq K] : List (K × β) → K → List (K × β)
  | [], _ => []
  | e :: t, k => if e.1 = k then t else e :: aerase t k

/-- Set the value under a key, inserting the key when absent (models
`map[key] = value`, which default-constructs a slot for an absent key). -/
def amapSet {K : Type} {β : Type} [DecidableEq K] : List (K × β) → K → β → List (K × β)
  | [], k, v => [(k, v)]
  | e :: t, k, v => if e.1 = k then (k, v) :: t else e :: amapSet t k v

/-- The keys of an association list. -/
def akeys {K : Type} {β : Type} : List (K × β) → List K :=
  List.map Prod.fst

/-- Remove the first occurrence of an element from a plain list (models
`std::list::remove` of a node pointer, and ghost-list unlinking). -/
def kerase {K : Type} [DecidableEq K] : List K → K → List K
  | [], _ => []
  | x :: t, k => if x = k then t else x :: kerase t k

/-! ### `XLRUCache` (src/XLRUCache.h, lines 38-153) -/

/-- Model of `XLRUCache`: a capacity together with an ordered association
list; the front of the list is the least-recently-used entry
(`dummyHead->next`) and the back is the most recent (`dummyTail->prev`). -/
structure XLRUCache (K V : Type) where
  capacity : Nat
  entries : List (K × V)

namespace XLRUCache

variable {K V : Type} [DecidableEq K]

/-- `bool get(Key, Value&)`: on a hit the node is moved to the most-recent
end and its value is returned. -/
def get (s : XLRUCache K V) (k : K) : XLRUCache K V × Option V :=
  match alookup s.entries k with
  | none => (s, none)
  | some v => ({ s with entries := aerase s.entries k ++ [(k, v)] }, some v)

/-- `void put(Key, Value)`: update-and-move on a hit; otherwise evict the
least-recent entry when full, then insert at the most-recent end.  A
non-positive capacity makes the call a no-op. -/
def put (s : XLRUCache K V) (k : K) (v : V) : XLRUCache K V :=
  if s.capacity = 0 then s
  else
    match alookup s.entries k with
    | some _ => { s with entries := aerase s.entries k ++ [(k, v)] }
    | none =>
      let remaining :=
        if s.entries.length ≥ s.capacity then s.entries.tail else s.entries
      { s with entries := remaining ++ [(k, v)] }

/-- `void remove(Key)`. -/
def remove (s : XLRUCache K V) (k : K) : XLRUCache K V :=
  { s with entries := aerase s.entries k }

/-- `size_t size()`. -/
def size (s : XLRUCache K V) : Nat := s.entries.length

/-- `Key getOldestKey()`: the key at the least-recent end, or a
value-initialized key when the list is empty. -/
def getOldestKey [Inhabited K] (s : XLRUCache K V) : K :=
  match s.entries with
  | [] => default
  | e :: _ => e.1

end XLRUCache

/-! ### `FrequencySketch` (src/XWTinyLFUCache.h, lines 16-93) -/

/-- One Count-Min row: its hash function (`hashFunctions[i](key) ^
hashSeeds[i]`) paired with its `width` 8-bit saturating counters. -/
abbrev SketchRow (K : Type) := (K → Nat) × List Nat

/-- Model of `FrequencySketch`: `depth` rows of `width` counters. -/
structure FrequencySketch (K : Type) where
  width : Nat
  rows : List (SketchRow K)

namespace FrequencySketch

variable {K : Type}

/-- Bump the counter at one index, saturating at 255
(`if (counters[i][index].count < 255) counters[i][index].count++`). -/
def bumpAt : List Nat → Nat → List Nat
  | [], _ => []
  | c :: cs, 0 => (if c < 255 then c + 1 else c) :: cs
  | c :: cs, n + 1 => c :: bumpAt cs n

/-- `void increment(Key)`: per row, bump the counter at the hashed index.
`(hash % width + width) % width` equals `hash % width` for the unsigned
`size_t` values of the source. -/
def increment (s : FrequencySketch K) (k : K) : FrequencySketch K :=
  { s with rows := s.rows.map (fun r => (r.1, bumpAt r.2 (r.1 k % s.width))) }

/-- `uint32_t frequency(Key)`: the minimum over all rows of the counter at
the hashed index, starting from `UINT32_MAX`. -/
def frequency (s : FrequencySketch K) (k : K) : Nat :=
  s.rows.foldl (fun m r => min m (r.2.getD (r.1 k % s.width) 0)) (2 ^ 32 - 1)

/-- `void decay()`: halve every positive counter. -/
def decay (s : FrequencySketch K) : FrequencySketch K :=
  { s with rows := s.rows.map (fun r => (r.1, r.2.map (fun c => if 0 < c then c / 2 else c))) }

/-- `void reset()`: zero every counter. -/
def reset (s : FrequencySketch K) : FrequencySketch K :=
  { s with rows := s.rows.map (fun r => (r.1, r.2.map (fun _ => 0))) }

/-- A sequence of `increment` calls. -/
def incrementList (s : FrequencySketch K) (ks : List K) : FrequencySketch K :=
  ks.foldl increment s

/-- The counter of row `i` at index `j` (0 outside the matrix). -/
def rowsCounter : List (SketchRow K) → Nat → Nat → Nat
  | [], _, _ => 0
  | r :: _, 0, j => r.2.getD j 0
  | _ :: rs, i + 1, j => rowsCounter rs i j

/-- The counter of row `i` at index `j` of the sketch. -/
def getCounter (s : FrequencySketch K) (i j : Nat) : Nat :=
  rowsCounter s.rows i j

/-- Every counter of the sketch is at most `b`. -/
def counterBound (s : FrequencySketch K) (b : Nat) : Prop :=
  ∀ r ∈ s.rows, ∀ c ∈ r.2, c ≤ b

instance (s : FrequencySketch K) (b : Nat) : Decidable (s.counterBound b) := by
  unfold counterBound
  infer_instance

end FrequencySketch

/-! ### `XWTinyLFUCache` (src/XWTinyLFUCache.h, lines 96-366) -/

/-- Model of `XWTinyLFUCache`: window LRU, victim LRU, frequency sketch and
the statistics counters. -/
structure XWTinyLFUCache (K V : Type) where
  windowCache : XLRUCache K V
  victimCache : XLRUCache K V
  frequencySketch : FrequencySketch K
  totalCapacity : Nat
  windowCapacity : Nat
  victimCapacity : Nat
  accessCount : Nat
  hitCount : Nat
  windowHits : Nat
  victimHits : Nat
  admissionWins : Nat
  admissionLosses : Nat
  operationCount : Nat

namespace XWTinyLFUCache

variable {K V : Type} [DecidableEq K] [Inhabited K]

/-- The constructor `XWTinyLFUCache(capacity, windowRatio)` with
`windowRatio` given as the exact rational `wrNum / wrDen` and the per-row
hash functions supplied explicitly (the source draws random seeds).  Note
that `victimCapacity` is computed from the pre-clamp `windowCapacity`. -/
def mk' (capacity wrNum wrDen : Nat) (hs : List (K → Nat)) : XWTinyLFUCache K V :=
  let wc0 := capacity * wrNum / wrDen
  let vc0 := capacity - wc0
  let wc := if wc0 = 0 then 1 else wc0
  let vc := if vc0 = 0 then capacity - 1 else vc0
  let w := max 256 (capacity * 4)
  { windowCache := ⟨wc, []⟩
    victimCache := ⟨vc, []⟩
    frequencySketch := ⟨w, hs.map (fun h => (h, List.replicate w 0))⟩
    totalCapacity := capacity
    windowCapacity := wc
    victimCapacity := vc
    accessCount := 0, hitCount := 0, windowHits := 0, victimHits := 0
    admissionWins := 0, admissionLosses := 0, operationCount := 0 }

/-- `void updateStats(bool hit, bool windowHit)`. -/
def updateStats (s : XWTinyLFUCache K V) (hit windowHit : Bool) : XWTinyLFUCache K V :=
  if hit then
    if windowHit then
      { s with accessCount := s.accessCount + 1, hitCount := s.hitCount + 1,
               windowHits := s.windowHits + 1 }
    else
      { s with accessCount := s.accessCount + 1, hitCount := s.hitCount + 1,
               victimHits := s.victimHits + 1 }
  else { s with accessCount := s.accessCount + 1 }

/-- `void ensureVictimCapacity(Key, Value)`: the admission procedure for the
window-evicted pair. -/
def ensureVictimCapacity (s : XWTinyLFUCache K V) (kw : K) (vw : V) : XWTinyLFUCache K V :=
  let op := s.operationCount + 1
  let sk := if op % 1000 = 0 then s.frequencySketch.decay else s.frequencySketch
  let s := { s with operationCount := op, frequencySketch := sk }
  if s.victimCache.size < s.victimCapacity then
    { s with victimCache := s.victimCache.put kw vw }
  else
    let kc := s.victimCache.getOldestKey
    match s.victimCache.get kc with
    | (v', none) => { s with victimCache := v'.put kw vw }
    | (v', some _) =>
      let s := { s with victimCache := v' }
      let fw := s.frequencySketch.frequency kw
      let fc := s.frequencySketch.frequency kc
      if fw ≥ fc then
        { s with victimCache := (s.victimCache.remove kc).put kw vw,
                 admissionWins := s.admissionWins + 1 }
      else
        { s with admissionLosses := s.admissionLosses + 1 }

/-- `void ensureWindowCapacity()`: when the window is full, move its oldest
entry out and offer it to the victim cache through the admission
procedure. -/
def ensureWindowCapacity (s : XWTinyLFUCache K V) : XWTinyLFUCache K V :=
  if s.windowCache.size ≥ s.windowCapacity then
    let kw := s.windowCache.getOldestKey
    match s.windowCache.get kw with
    | (w', some vw) =>
      let s := { s with windowCache := w'.remove kw }
      ensureVictimCapacity s kw vw
    | (_, none) => s
  else s

/-- `void put(Key, Value)`. -/
def put (s : XWTinyLFUCache K V) (k : K) (v : V) : XWTinyLFUCache K V :=
  if s.totalCapacity = 0 then s
  else
    let s := { s with frequencySketch := s.frequencySketch.increment k }
    let wr := s.windowCache.get k
    let s := { s with windowCache := wr.1 }
    if wr.2.isSome then { s with windowCache := s.windowCache.put k v }
    else
      let vr := s.victimCache.get k
      let s := { s with victimCache := vr.1 }
      if vr.2.isSome then { s with victimCache := s.victimCache.put k v }
      else
        let s := ensureWindowCapacity s
        { s with windowCache := s.windowCache.put k v }

/-- `bool get(Key, Value&)`. -/
def get (s : XWTinyLFUCache K V) (k : K) : XWTinyLFUCache K V × Option V :=
  if s.totalCapacity = 0 then (s, none)
  else
    let s := { s with frequencySketch := s.frequencySketch.increment k }
    match s.windowCache.get k with
    | (w', some v) => (updateStats { s with windowCache := w' } true true, some v)
    | (w', none) =>
      let s := { s with windowCache := w' }
      match s.victimCache.get k with
      | (v', some v) => (updateStats { s with victimCache := v' } true false, some v)
      | (v', none) => (updateStats { s with victimCache := v' } false false, none)

/-- `void remove(Key)`. -/
def remove (s : XWTinyLFUCache K V) (k : K) : XWTinyLFUCache K V :=
  { s with windowCache := s.windowCache.remove k, victimCache := s.victimCache.remove k }

/-- The sketch state at the moment `ensureVictimCapacity` compares the two
candidates: the engine's sketch after the periodic decay, if this admission
triggers it. -/
def sketchAtComparison (s : XWTinyLFUCache K V) : FrequencySketch K :=
  if (s.operationCount + 1) % 1000 = 0 then s.frequencySketch.decay else s.frequencySketch

/-- The sketch state at the moment a `put k` that reaches the admission
procedure compares the two candidates: the engine's sketch after the
`increment(k)` at the top of `put`, decayed when this admission is a 1000th
one. -/
def putComparisonSketch (s : XWTinyLFUCache K V) (k : K) : FrequencySketch K :=
  if (s.operationCount + 1) % 1000 = 0 then (s.frequencySketch.increment k).decay
  else s.frequencySketch.increment k

end XWTinyLFUCache

/-- A small concrete W-TinyLFU state used by witnesses: window capacity 1
holding key 5, victim capacity 2 full with keys 1 and 2, and a one-row
sketch of width 8 with the identity hash whose counters give key 1 the
estimate 3 and key 5 the estimate 0. -/
def wtExample : XWTinyLFUCache Nat String :=
  { windowCache := ⟨1, [(5, "v5")]⟩
    victimCache := ⟨2, [(1, "a"), (2, "b")]⟩
    frequencySketch := ⟨8, [(fun x => x, [0, 3, 0, 0, 0, 0, 0, 0])]⟩
    totalCapacity := 3, windowCapacity := 1, victimCapacity := 2
    accessCount := 0, hitCount := 0, windowHits := 0, victimHits := 0
    admissionWins := 0, admissionLosses := 0, operationCount := 0 }

/-! ### `XLFUCache` (src/XLFUCache.h, lines 82-370) -/

/-- Model of `XLFUCache`.  `nodeMap` records each resident key with its value
and frequency; `freqMap` maps a frequency to the keys of its `Freqlist` in
list order (front = `head->next`).  Buckets are created on demand and never
erased, exactly as in the source.  `agingFactor` is the exact rational
`afNum / afDen`. -/
structure XLFUCache (K V : Type) where
  capacity : Nat
  maxAverageFreq : Int
  agingThreshold : Nat
  afNum : Nat
  afDen : Nat
  minFreq : Nat
  curTotalFreq : Int
  curAverageFreq : Int
  operationCount : Nat
  nodeMap : List (K × V × Nat)
  freqMap : List (Nat × List K)

namespace XLFUCache

variable {K V : Type} [DecidableEq K] [Inhabited K]

/-- The constructor `XLFUCache(capacity, maxAvgFreq, agingThreshold,
agingFactor)`; the two-argument constructor is `mk' c m 10000 4 5`
(defaults `agingThreshold = 10000`, `agingFactor = 0.8`).  `minFreq` starts
at `INT8_MAX`. -/
def mk' (capacity : Nat) (maxAvgFreq : Int) (agingThreshold afNum afDen : Nat) :
    XLFUCache K V :=
  { capacity := capacity, maxAverageFreq := maxAvgFreq,
    agingThreshold := agingThreshold, afNum := afNum, afDen := afDen,
    minFreq := 127, curTotalFreq := 0, curAverageFreq := 0,
    operationCount := 0, nodeMap := [], freqMap := [] }

/-- `void removeFromFreqlist(NodePtr)`: unlink the node (key `k`, frequency
`f`) from its frequency bucket. -/
def removeFromFreqlist (s : XLFUCache K V) (k : K) (f : Nat) : XLFUCache K V :=
  { s with freqMap := amapSet s.freqMap f (kerase ((alookup s.freqMap f).getD []) k) }

/-- `void addToFreqlist(NodePtr)`: create the bucket if missing, then append
the node at the tail of the bucket's list. -/
def addToFreqlist (s : XLFUCache K V) (k : K) (f : Nat) : XLFUCache K V :=
  { s with freqMap := amapSet s.freqMap f (((alookup s.freqMap f).getD []) ++ [k]) }

/-- `void updateMinFreq()`: minimum over non-empty buckets starting from
`INT8_MAX` (127); when no bucket lowers it, fall back to 1. -/
def updateMinFreq (s : XLFUCache K V) : XLFUCache K V :=
  let m := s.freqMap.foldl (fun m b => if b.2.isEmpty then m else min m b.1) 127
  { s with minFreq := if m = 127 then 1 else m }

/-- `void recalculateFreqStats()`. -/
def recalculateFreqStats (s : XLFUCache K V) : XLFUCache K V :=
  let total : Int := s.nodeMap.foldl (fun t e => t + (e.2.2 : Int)) 0
  let avg : Int :=
    if s.nodeMap.isEmpty then 0 else Int.tdiv total (s.nodeMap.length : Int)
  { s with curTotalFreq := total, curAverageFreq := avg }

/-- The new frequency computed by `performAging`:
`max(1, static_cast<int>(freq * agingFactor))`. -/
def agedFreq (s : XLFUCache K V) (f : Nat) : Nat :=
  max 1 (f * s.afNum / s.afDen)

/-- `void performAging()`: rebucket every resident node at its decayed
frequency, then recompute the statistics and `minFreq`.  The source iterates
the `unordered_map` in unspecified order; the model iterates `nodeMap` in
list order, which our theorems never depend on (they only exercise aging with
a single resident node, where every order coincides). -/
def performAging (s : XLFUCache K V) : XLFUCache K V :=
  if s.nodeMap.isEmpty then s
  else
    let fm := s.nodeMap.foldl
      (fun fm e =>
        let fm1 := amapSet fm e.2.2 (kerase ((alookup fm e.2.2).getD []) e.1)
        amapSet fm1 (agedFreq s e.2.2)
          (((alookup fm1 (agedFreq s e.2.2)).getD []) ++ [e.1]))
      s.freqMap
    let nm := s.nodeMap.map (fun e => (e.1, e.2.1, agedFreq s e.2.2))
    updateMinFreq (recalculateFreqStats { s with nodeMap := nm, freqMap := fm })

/-- `void addFreqNum()`: bump the totals, recompute the average, and run the
aging pass when the operation counter or the average frequency triggers
it. -/
def addFreqNum (s : XLFUCache K V) : XLFUCache K V :=
  let total := s.curTotalFreq + 1
  let op := s.operationCount + 1
  let avg : Int :=
    if s.nodeMap.isEmpty then 0 else Int.tdiv total (s.nodeMap.length : Int)
  let s1 := { s with curTotalFreq := total, operationCount := op, curAverageFreq := avg }
  if op % s1.agingThreshold = 0 ∨ avg > s1.maxAverageFreq then performAging s1 else s1

/-- `void decreaseFreqNum(int)`. -/
def decreaseFreqNum (s : XLFUCache K V) (n : Nat) : XLFUCache K V :=
  let total := s.curTotalFreq - (n : Int)
  let avg : Int :=
    if s.nodeMap.length = 0 then 0 else Int.tdiv total (s.nodeMap.length : Int)
  { s with curTotalFreq := total, curAverageFreq := avg }

/-- `void HandleOverMaxAvgFreq()`: the shift-down pass
`freq -= maxAverageFreq / 2` clamped at 1, then `updateMinFreq`.  This
member function is declared and defined but never called by the engine. -/
def HandleOverMaxAvgFreq (s : XLFUCache K V) : XLFUCache K V :=
  if s.nodeMap.isEmpty then s
  else
    let down : Nat → Nat := fun f => max 1 (f - (s.maxAverageFreq.tdiv 2).toNat)
    let fm := s.nodeMap.foldl
      (fun fm e =>
        let fm1 := amapSet fm e.2.2 (kerase ((alookup fm e.2.2).getD []) e.1)
        amapSet fm1 (down e.2.2) (((alookup fm1 (down e.2.2)).getD []) ++ [e.1]))
      s.freqMap
    let nm := s.nodeMap.map (fun e => (e.1, e.2.1, down e.2.2))
    updateMinFreq { s with nodeMap := nm, freqMap := fm }

/-- `void getInternal(NodePtr, Value&)` on the node with key `k` and current
frequency `f` (the out-value is the node's stored value). -/
def getInternal (s : XLFUCache K V) (k : K) (f : Nat) : XLFUCache K V :=
  let s1 := removeFromFreqlist s k f
  let s2 := { s1 with
    nodeMap := s1.nodeMap.map (fun e => if e.1 = k then (e.1, e.2.1, f + 1) else e) }
  let s3 := addToFreqlist s2 k (f + 1)
  let s4 :=
    if f = s3.minFreq ∧ ((alookup s3.freqMap f).getD []).isEmpty then
      { s3 with minFreq := s3.minFreq + 1 }
    else s3
  addFreqNum s4

/-- The body of `kickout` once a bucket has been selected: evict its first
node.  When the selected bucket is empty, `getfirstNode` returns the tail
sentinel, whose key is value-initialized and whose `freq` is 1:
`removeFromFreqlist` then does not unlink anything, `nodeMap.erase` erases
the default key (normally absent) and `decreaseFreqNum(1)` still runs. -/
def kickoutNode (s : XLFUCache K V) (b : List K) (mf : Nat) : XLFUCache K V :=
  match b with
  | [] =>
    decreaseFreqNum { s with nodeMap := aerase s.nodeMap (default : K) } 1
  | k :: _ =>
    let f :=
      match alookup s.nodeMap k with
      | some p => p.2
      | none => mf
    let s1 := removeFromFreqlist s k f
    let s2 := { s1 with nodeMap := aerase s1.nodeMap k }
    decreaseFreqNum s2 f

/-- `void kickout()`: find the `minFreq` bucket, recomputing `minFreq` when
the cached bucket is missing or empty; give up when even the recomputed
bucket is missing. -/
def kickout (s : XLFUCache K V) : XLFUCache K V :=
  let needUpd :=
    match alookup s.freqMap s.minFreq with
    | none => true
    | some b => b.isEmpty
  if needUpd then
    let s1 := updateMinFreq s
    match alookup s1.freqMap s1.minFreq with
    | none => s1
    | some b => kickoutNode s1 b s1.minFreq
  else
    match alookup s.freqMap s.minFreq with
    | none => s
    | some b => kickoutNode s b s.minFreq

/-- `void putInternal(Key, Value)`: evict when exactly at capacity, insert
the new node at frequency 1. -/
def putInternal (s : XLFUCache K V) (k : K) (v : V) : XLFUCache K V :=
  let s1 := if s.nodeMap.length = s.capacity then kickout s else s
  let s2 := { s1 with nodeMap := s1.nodeMap ++ [(k, v, 1)] }
  let s3 := addToFreqlist s2 k 1
  let s4 := addFreqNum s3
  { s4 with minFreq := min s4.minFreq 1 }

/-- `void put(Key, Value)`. -/
def put (s : XLFUCache K V) (k : K) (v : V) : XLFUCache K V :=
  if s.capacity = 0 then s
  else
    match alookup s.nodeMap k with
    | some p =>
      let s1 := { s with
        nodeMap := s.nodeMap.map (fun e => if e.1 = k then (e.1, v, e.2.2) else e) }
      getInternal s1 k p.2
    | none => putInternal s k v

/-- `bool get(Key, Value&)`. -/
def get (s : XLFUCache K V) (k : K) : XLFUCache K V × Option V :=
  match alookup s.nodeMap k with
  | some p => (getInternal s k p.2, some p.1)
  | none => (s, none)

/-- The recorded frequency of a resident key. -/
def freqOf (s : XLFUCache K V) (k : K) : Option Nat :=
  (alookup s.nodeMap k).map (fun p => p.2)

/-- The number of resident entries (`nodeMap.size()`). -/
def size (s : XLFUCache K V) : Nat := s.nodeMap.length

end XLFUCache

/-! ### ARC (src/XArcCache/XArcLRUpart.h, XArcLFUpart.h, XArcCache.h)

The LFU-part's `addNewNode` contains `if (mainCache.find(1) ==
mainCache.end()) freqMap[1] = std::list<NodePtr>();`, which looks up the
*key* `1` in `mainCache`; this forces the key type to be a numeric type, so
the ARC model is instantiated at `K = Nat`. -/

/-- Model of `XArcLRUpart`: the recency half.  `mainCache` front =
`mainHead->next` = most recent; `ghostCache` front = `ghostHead->next` =
most recently ghosted. -/
structure XArcLRUpart (V : Type) where
  capacity : Nat
  ghostCapacity : Nat
  transformThreshold : Nat
  mainCache : List (Nat × V × Nat)
  ghostCache : List Nat

namespace XArcLRUpart

variable {V : Type}

/-- The constructor: both the main and ghost capacity equal `capacity`. -/
def mk' (capacity transformThreshold : Nat) : XArcLRUpart V :=
  { capacity := capacity, ghostCapacity := capacity,
    transformThreshold := transformThreshold, mainCache := [], ghostCache := [] }

/-- `void evictLeastRecent()`: move the last main entry into the ghost list
(dropping the ghost's oldest when the ghost list is full). -/
def evictLeastRecent (p : XArcLRUpart V) : XArcLRUpart V :=
  match p.mainCache.getLast? with
  | none => p
  | some e =>
    let g :=
      if p.ghostCache.length ≥ p.ghostCapacity then p.ghostCache.dropLast
      else p.ghostCache
    { p with mainCache := p.mainCache.dropLast, ghostCache := e.1 :: g }

/-- `bool put(Key, Value)`. -/
def put (p : XArcLRUpart V) (k : Nat) (v : V) : XArcLRUpart V :=
  if p.capacity = 0 then p
  else
    match alookup p.mainCache k with
    | some pr => { p with mainCache := (k, v, pr.2) :: aerase p.mainCache k }
    | none =>
      let p1 := if p.mainCache.length ≥ p.capacity then evictLeastRecent p else p
      { p1 with mainCache := (k, v, 1) :: p1.mainCache }

/-- `bool get(Key, Value&, bool& shouldTransform)`: move-to-front, bump the
access count and report whether it reached `transformThreshold`. -/
def get (p : XArcLRUpart V) (k : Nat) : XArcLRUpart V × Option (V × Bool) :=
  match alookup p.mainCache k with
  | none => (p, none)
  | some pr =>
    let cnt := pr.2 + 1
    ({ p with mainCache := (k, pr.1, cnt) :: aerase p.mainCache k },
      some (pr.1, p.transformThreshold ≤ cnt))

/-- `bool checkGhost(Key)`: remove the key from the ghost list when
present. -/
def checkGhost (p : XArcLRUpart V) (k : Nat) : XArcLRUpart V × Bool :=
  if k ∈ p.ghostCache then ({ p with ghostCache := kerase p.ghostCache k }, true)
  else (p, false)

/-- `void increaseCapacity()`. -/
def increaseCapacity (p : XArcLRUpart V) : XArcLRUpart V :=
  { p with capacity := p.capacity + 1 }

/-- `bool decreaseCapacity()`: refuse at zero; evict first when exactly
full. -/
def decreaseCapacity (p : XArcLRUpart V) : XArcLRUpart V × Bool :=
  if p.capacity = 0 then (p, false)
  else
    let p1 := if p.mainCache.length = p.capacity then evictLeastRecent p else p
    ({ p1 with capacity := p1.capacity - 1 }, true)

end XArcLRUpart

/-- Model of `XArcLFUpart`: the frequency half.  `mainCache` is an
association list (map order immaterial), `freqMap` maps a frequency to its
bucket in list order, `ghostCache` front = `ghostHead->next` = oldest
ghost. -/
structure XArcLFUpart (V : Type) where
  capacity : Nat
  ghostCapacity : Nat
  transformThreshold : Nat
  minFreq : Nat
  mainCache : List (Nat × V × Nat)
  freqMap : List (Nat × List Nat)
  ghostCache : List Nat

namespace XArcLFUpart

variable {V : Type}

/-- The constructor: both capacities equal `capacity`, `minFreq = 0`. -/
def mk' (capacity transformThreshold : Nat) : XArcLFUpart V :=
  { capacity := capacity, ghostCapacity := capacity,
    transformThreshold := transformThreshold, minFreq := 0,
    mainCache := [], freqMap := [], ghostCache := [] }

/-- The smallest frequency present in the bucket map
(`freqMap.begin()->first` of the ordered `std::map`); only consulted when
the map is non-empty. -/
def fmMinKey (fm : List (Nat × List Nat)) : Nat :=
  match fm.map Prod.fst with
  | [] => 0
  | x :: t => t.foldl min x

/-- `void updateNodeFreq(NodePtr)` on the node with key `k` and access count
`oldF`. -/
def updateNodeFreq (p : XArcLFUpart V) (k oldF : Nat) : XArcLFUpart V :=
  let newF := oldF + 1
  let b1 := kerase ((alookup p.freqMap oldF).getD []) k
  let fm1 := if b1.isEmpty then aerase p.freqMap oldF else amapSet p.freqMap oldF b1
  let minF1 := if b1.isEmpty ∧ p.minFreq = oldF then newF else p.minFreq
  let fm2 := amapSet fm1 newF (((alookup fm1 newF).getD []) ++ [k])
  { p with minFreq := minF1, freqMap := fm2,
           mainCache := p.mainCache.map (fun e => if e.1 = k then (k, e.2.1, newF) else e) }

/-- `void evictLeastFrequentNode()`: pop the front of the `minFreq` bucket
into the ghost list; a missing bucket is created empty by `operator[]` and
then aborts the eviction. -/
def evictLeastFrequentNode (p : XArcLFUpart V) : XArcLFUpart V :=
  if p.freqMap.isEmpty then p
  else
    let b := (alookup p.freqMap p.minFreq).getD []
    let fmc := amapSet p.freqMap p.minFreq b
    match b with
    | [] => { p with freqMap := fmc }
    | k :: rest =>
      let fm1 := amapSet fmc p.minFreq rest
      let st :=
        if rest.isEmpty then
          let fmE := aerase fm1 p.minFreq
          ((fmE, if fmE.isEmpty then p.minFreq else fmMinKey fmE))
        else (fm1, p.minFreq)
      let g :=
        if p.ghostCache.length ≥ p.ghostCapacity then p.ghostCache.tail
        else p.ghostCache
      { p with freqMap := st.1, minFreq := st.2,
               ghostCache := g ++ [k],
               mainCache := aerase p.mainCache k }

/-- `bool addNewNode(Key, Value)`.  The guard `if (mainCache.find(1) ==
mainCache.end()) freqMap[1] = std::list<NodePtr>();` checks residency of the
*key* `1` in the updated `mainCache` and, when key 1 is absent, resets
bucket 1 to the empty list before appending the new node. -/
def addNewNode (p : XArcLFUpart V) (k : Nat) (v : V) : XArcLFUpart V :=
  let p1 := if p.mainCache.length ≥ p.capacity then evictLeastFrequentNode p else p
  let mc := p1.mainCache ++ [(k, v, 1)]
  let fm0 := if (alookup mc (1 : Nat)).isSome then p1.freqMap else amapSet p1.freqMap 1 []
  let fm1 := amapSet fm0 1 (((alookup fm0 1).getD []) ++ [k])
  { p1 with mainCache := mc, freqMap := fm1, minFreq := 1 }

/-- `bool put(Key, Value)`. -/
def put (p : XArcLFUpart V) (k : Nat) (v : V) : XArcLFUpart V :=
  if p.capacity = 0 then p
  else
    match alookup p.mainCache k with
    | some pr =>
      let p1 := { p with
        mainCache := p.mainCache.map (fun e => if e.1 = k then (k, v, e.2.2) else e) }
      updateNodeFreq p1 k pr.2
    | none => addNewNode p k v

/-- `bool get(Key, Value&)`. -/
def get (p : XArcLFUpart V) (k : Nat) : XArcLFUpart V × Option V :=
  match alookup p.mainCache k with
  | none => (p, none)
  | some pr => (updateNodeFreq p k pr.2, some pr.1)

/-- `bool contain(Key)`. -/
def contain (p : XArcLFUpart V) (k : Nat) : Bool :=
  (alookup p.mainCache k).isSome

/-- `bool checkGhost(Key)`. -/
def checkGhost (p : XArcLFUpart V) (k : Nat) : XArcLFUpart V × Bool :=
  if k ∈ p.ghostCache then ({ p with ghostCache := kerase p.ghostCache k }, true)
  else (p, false)

/-- `void increaseCapacity()`. -/
def increaseCapacity (p : XArcLFUpart V) : XArcLFUpart V :=
  { p with capacity := p.capacity + 1 }

/-- `bool decreaseCapacity()`. -/
def decreaseCapacity (p : XArcLFUpart V) : XArcLFUpart V × Bool :=
  if p.capacity = 0 then (p, false)
  else
    let p1 := if p.mainCache.length = p.capacity then evictLeastFrequentNode p else p
    ({ p1 with capacity := p1.capacity - 1 }, true)

end XArcLFUpart

/-- Model of `XArcCache` (src/XArcCache/XArcCache.h). -/
structure XArcCache (V : Type) where
  capacity : Nat
  transformThreshold : Nat
  lfupart : XArcLFUpart V
  lrupart : XArcLRUpart V

namespace XArcCache

variable {V : Type}

/-- The constructor `XArcCache(capacity, transformThreshold)`: both halves
are constructed with the full `capacity`. -/
def mk' (capacity transformThreshold : Nat) : XArcCache V :=
  { capacity := capacity, transformThreshold := transformThreshold,
    lfupart := XArcLFUpart.mk' capacity transformThreshold,
    lrupart := XArcLRUpart.mk' capacity transformThreshold }

/-- `bool checkGhostCaches(Key)`: a hit in one half's ghost list steals one
unit of capacity from the other half (when that half can give one up). -/
def checkGhostCaches (s : XArcCache V) (k : Nat) : XArcCache V :=
  let fr := s.lfupart.checkGhost k
  if fr.2 then
    let rr := s.lrupart.decreaseCapacity
    if rr.2 then { s with lfupart := fr.1.increaseCapacity, lrupart := rr.1 }
    else { s with lfupart := fr.1, lrupart := rr.1 }
  else
    let rr := s.lrupart.checkGhost k
    if rr.2 then
      let fr2 := fr.1.decreaseCapacity
      if fr2.2 then { s with lfupart := fr2.1, lrupart := rr.1.increaseCapacity }
      else { s with lfupart := fr2.1, lrupart := rr.1 }
    else { s with lfupart := fr.1, lrupart := rr.1 }

/-- `void put(Key, Value)`: always write to the recency half; refresh the
frequency half's copy when one exists. -/
def put (s : XArcCache V) (k : Nat) (v : V) : XArcCache V :=
  let s1 := checkGhostCaches s k
  let inLFU := s1.lfupart.contain k
  let s2 := { s1 with lrupart := s1.lrupart.put k v }
  if inLFU then { s2 with lfupart := s2.lfupart.put k v } else s2

/-- `bool get(Key, Value&)`: recency half first (promoting into the
frequency half at the threshold), then the frequency half. -/
def get (s : XArcCache V) (k : Nat) : XArcCache V × Option V :=
  let s1 := checkGhostCaches s k
  match s1.lrupart.get k with
  | (lru1, some r) =>
    let s2 := { s1 with lrupart := lru1 }
    if r.2 then ({ s2 with lfupart := s2.lfupart.put k r.1 }, some r.1)
    else (s2, some r.1)
  | (lru1, none) =>
    let s2 := { s1 with lrupart := lru1 }
    let fr := s2.lfupart.get k
    ({ s2 with lfupart := fr.1 }, fr.2)

/-- The number of value-holding resident entries: both halves' main caches
together. -/
def residentCount (s : XArcCache V) : Nat :=
  s.lrupart.mainCache.length + s.lfupart.mainCache.length

end XArcCache

/-! ### `XLRUKCache` (src/XLRUCache.h, lines 155-236) -/

/-- Model of `XLRUKCache`: the main LRU (the base sub-object), the history
LRU mapping keys to access counts, and the side table `historyMap` stashing
values seen before promotion. -/
structure XLRUKCache (K V : Type) where
  main : XLRUCache K V
  k : Nat
  historyList : XLRUCache K Nat
  historyMap : List (K × V)

namespace XLRUKCache

variable {K V : Type} [DecidableEq K] [Inhabited K] [Inhabited V]

/-- The constructor `XLRUKCache(capacity, k, historyRatio)` with the default
`historyRatio = 2.5` modelled exactly: the history capacity is
`⌊capacity * 5 / 2⌋`. -/
def mk' (capacity kk : Nat) : XLRUKCache K V :=
  { main := ⟨capacity, []⟩, k := kk,
    historyList := ⟨capacity * 5 / 2, []⟩, historyMap := [] }

/-- `Value get(Key)`: consult the main LRU, then unconditionally bump the
history count (the `Value get(Key)` overload of the history list returns 0 on
a miss), then either return the main hit or consider promotion. -/
def get (s : XLRUKCache K V) (key : K) : XLRUKCache K V × V :=
  let mr := s.main.get key
  let s := { s with main := mr.1 }
  let hr := s.historyList.get key
  let hc := (hr.2.getD 0) + 1
  let s := { s with historyList := hr.1.put key hc }
  match mr.2 with
  | some v => (s, v)
  | none =>
    if s.k ≤ hc then
      match alookup s.historyMap key with
      | some stored =>
        ({ s with historyList := s.historyList.remove key,
                  historyMap := aerase s.historyMap key,
                  main := s.main.put key stored }, stored)
      | none => (s, default)
    else (s, default)

/-- `void put(Key, Value)`. -/
def put (s : XLRUKCache K V) (key : K) (value : V) : XLRUKCache K V :=
  let mr := s.main.get key
  let s := { s with main := mr.1 }
  if mr.2.isSome then { s with main := s.main.put key value }
  else
    let hr := s.historyList.get key
    let hc := (hr.2.getD 0) + 1
    let s := { s with historyList := hr.1.put key hc,
                      historyMap := amapSet s.historyMap key value }
    if s.k ≤ hc then
      let s := { s with historyList := s.historyList.remove key }
      match alookup s.historyMap key with
      | some stored =>
        { s with historyMap := aerase s.historyMap key, main := s.main.put key stored }
      | none => s
    else s

end XLRUKCache

/-! ### `XAdaptiveCache` (src/XAdaptiveCache.h)

The coordinator is modelled parametrically in the wrapped engines: `ε` is
the engine-state type and `step i e k` is engine `i`'s
`bool get(Key, Value&)` call, returning the new engine state, the hit flag
and the out-value.  The coordinator's own bookkeeping — the
`strategyPerformance` counters, the `currentStrategy` index, the
`evaluationCount` gate — is modelled exactly. -/

/-- Model of `XAdaptiveCache`'s coordinator state. -/
structure XAdaptiveCache (ε : Type) where
  engines : List ε
  strategyPerformance : List (Nat × Nat)
  currentStrategy : Nat
  switchThreshold : ℚ
  evaluationCount : Nat

namespace XAdaptiveCache

variable {ε : Type}

/-- The constructor: four engines, all counters zero, serving strategy
`LFU_AGING` (index 2), `switchThreshold = 0.02`. -/
def mk' (engines : List ε) : XAdaptiveCache ε :=
  { engines := engines, strategyPerformance := List.replicate 4 (0, 0),
    currentStrategy := 2, switchThreshold := 1 / 50, evaluationCount := 0 }

/-- A strategy's running hit-rate: `hits / total`, 0 before any access. -/
def hitRateOf (p : Nat × Nat) : ℚ :=
  if 0 < p.2 then (p.1 : ℚ) / (p.2 : ℚ) else 0

/-- The arg-max loop of `evaluateAndSwitchStrategy`: start from strategy 0
and scan indices `1, 2, ...`, keeping the new index only on a strictly
higher hit-rate. -/
def bestStrategyOf (hitRates : List ℚ) : Nat × ℚ :=
  ((List.range hitRates.length).drop 1).foldl
    (fun best i => if hitRates.getD i 0 > best.2 then (i, hitRates.getD i 0) else best)
    (0, hitRates.getD 0 0)

/-- `void evaluateAndSwitchStrategy()`: evaluate only every 1000th call;
switch to the arg-max strategy when its hit-rate beats the serving one by
more than `switchThreshold`.  The counters are left untouched. -/
def evaluateAndSwitchStrategy (s : XAdaptiveCache ε) : XAdaptiveCache ε :=
  let cnt := s.evaluationCount + 1
  let s1 := { s with evaluationCount := cnt }
  if cnt % 1000 ≠ 0 then s1
  else
    let hitRates := s1.strategyPerformance.map hitRateOf
    let best := bestStrategyOf hitRates
    let currentHitRate := hitRates.getD s1.currentStrategy 0
    if best.2 > currentHitRate + s1.switchThreshold then
      { s1 with currentStrategy := best.1 }
    else s1

/-- `bool get(Key, Value&)`: drive every wrapped engine (`step e key` is the
engine's own `get`, returning its next state, hit flag and out-value),
update every strategy's counters index-wise, answer from the serving
strategy, then run the switch evaluation. -/
def get {K V : Type} [Inhabited V] (step : ε → K → ε × Bool × V)
    (s : XAdaptiveCache ε) (key : K) : XAdaptiveCache ε × Bool × V :=
  let res := s.engines.map (fun e => step e key)
  let engines1 := res.map Prod.fst
  let hits := res.map (fun r => r.2.1)
  let values := res.map (fun r => r.2.2)
  let perf1 := List.zipWith
    (fun p h => (p.1 + if h then 1 else 0, p.2 + 1)) s.strategyPerformance hits
  let idx := s.currentStrategy
  let value := values.getD idx default
  let s1 := evaluateAndSwitchStrategy
    { s with engines := engines1, strategyPerformance := perf1 }
  (s1, hits.getD idx false, value)

end XAdaptiveCache

/-! ## Theorems

First the generic association-list toolkit, then per-engine lemmas, then the
claims. -/

section AssocLemmas

variable {K β : Type} [DecidableEq K]

@[simp] theorem akeys_nil : akeys ([] : List (K × β)) = [] := rfl

@[simp] theorem akeys_cons (e : K × β) (t : List (K × β)) :
    akeys (e :: t) = e.1 :: akeys t := rfl

@[simp] theorem alookup_nil (k : K) : alookup ([] : List (K × β)) k = none := rfl

theorem alookup_cons (e : K × β) (t : List (K × β)) (k : K) :
    alookup (e :: t) k = if e.1 = k then some e.2 else alookup t k := rfl

@[simp] theorem aerase_nil (k : K) : aerase ([] : List (K × β)) k = [] := rfl

theorem aerase_cons (e : K × β) (t : List (K × β)) (k : K) :
    aerase (e :: t) k = if e.1 = k then t else e :: aerase t k := rfl

theorem alookup_append (l₁ l₂ : List (K × β)) (k : K) :
    alookup (l₁ ++ l₂) k =
      match alookup l₁ k with
      | some v => some v
      | none => alookup l₂ k := by
  induction l₁ with
  | nil => rfl
  | cons e t ih =>
    by_cases h : e.1 = k
    · simp [alookup_cons, h]
    · simp [alookup_cons, h, ih]

theorem alookup_eq_none_of_not_mem_akeys {l : List (K × β)} {k : K}
    (h : k ∉ akeys l) : alookup l k = none := by
  induction l with
  | nil => rfl
  | cons e t ih =>
    have h1 : ¬ e.1 = k := by
      intro he
      exact h (by simp [he])
    have h2 : k ∉ akeys t := by
      intro ht
      exact h (by simp [ht])
    simp [alookup_cons, h1, ih h2]

theorem mem_akeys_of_alookup_eq_some {l : List (K × β)} {k : K} {v : β}
    (h : alookup l k = some v) : k ∈ akeys l := by
  induction l with
  | nil => simp at h
  | cons e t ih =>
    by_cases he : e.1 = k
    · simp [he]
    · rw [alookup_cons, if_neg he] at h
      simp only [akeys_cons, List.mem_cons]
      exact Or.inr (ih h)

theorem alookup_aerase_self {l : List (K × β)} {k : K}
    (h : (akeys l).Nodup) : alookup (aerase l k) k = none := by
  induction l with
  | nil => rfl
  | cons e t ih =>
    rw [akeys_cons, List.nodup_cons] at h
    by_cases he : e.1 = k
    · rw [aerase_cons, if_pos he]
      exact alookup_eq_none_of_not_mem_akeys (by rw [← he]; exact h.1)
    · rw [aerase_cons, if_neg he, alookup_cons, if_neg he]
      exact ih h.2

theorem alookup_aerase_ne {l : List (K × β)} {k x : K}
    (h : x ≠ k) : alookup (aerase l k) x = alookup l x := by
  induction l with
  | nil => rfl
  | cons e t ih =>
    by_cases he : e.1 = k
    · have hx : ¬ e.1 = x := by
        intro hex
        exact h (hex ▸ he)
      rw [aerase_cons, if_pos he, alookup_cons, if_neg hx]
    · by_cases hx : e.1 = x
      · rw [aerase_cons, if_neg he, alookup_cons, if_pos hx, alookup_cons, if_pos hx]
      · rw [aerase_cons, if_neg he, alookup_cons, if_neg hx, alookup_cons, if_neg hx]
        exact ih

theorem aerase_of_not_mem_akeys {l : List (K × β)} {k : K}
    (h : k ∉ akeys l) : aerase l k = l := by
  induction l with
  | nil => rfl
  | cons e t ih =>
    have h1 : ¬ e.1 = k := by
      intro he
      exact h (by simp [he])
    have h2 : k ∉ akeys t := by
      intro ht
      exact h (by simp [ht])
    rw [aerase_cons, if_neg h1, ih h2]

theorem length_aerase_of_mem {l : List (K × β)} {k : K}
    (h : k ∈ akeys l) : (aerase l k).length = l.length - 1 := by
  induction l with
  | nil => simp at h
  | cons e t ih =>
    by_cases he : e.1 = k
    · rw [aerase_cons, if_pos he]
      simp
    · rw [akeys_cons, List.mem_cons] at h
      rcases h with h | h
      · exact absurd h.symm he
      · rw [aerase_cons, if_neg he]
        simp only [List.length_cons, ih h]
        have : 1 ≤ t.length := by
          rcases ht : t with _ | _
          · rw [ht] at h; simp at h
          · simp
        omega

theorem length_aerase_le (l : List (K × β)) (k : K) :
    (aerase l k).length ≤ l.length := by
  induction l with
  | nil => simp
  | cons e t ih =>
    by_cases he : e.1 = k
    · rw [aerase_cons, if_pos he]
      simp
    · rw [aerase_cons, if_neg he]
      simp only [List.length_cons]
      omega

theorem akeys_aerase_sublist (l : List (K × β)) (k : K) :
    (akeys (aerase l k)).Sublist (akeys l) := by
  induction l with
  | nil => simp
  | cons e t ih =>
    by_cases he : e.1 = k
    · rw [aerase_cons, if_pos he, akeys_cons]
      exact List.sublist_cons_self _ _
    · rw [aerase_cons, if_neg he, akeys_cons, akeys_cons]
      exact ih.cons₂ _

theorem nodup_akeys_aerase {l : List (K × β)} {k : K}
    (h : (akeys l).Nodup) : (akeys (aerase l k)).Nodup :=
  (akeys_aerase_sublist l k).nodup h

theorem akeys_append (l₁ l₂ : List (K × β)) :
    akeys (l₁ ++ l₂) = akeys l₁ ++ akeys l₂ := by
  simp [akeys]

end AssocLemmas

section LRULemmas

variable {K V : Type} [DecidableEq K]

theorem XLRUCache.get_fst_capacity (s : XLRUCache K V) (k : K) :
    (s.get k).1.capacity = s.capacity := by
  unfold XLRUCache.get
  cases alookup s.entries k <;> rfl

theorem XLRUCache.put_capacity (s : XLRUCache K V) (k : K) (v : V) :
    (s.put k v).capacity = s.capacity := by
  unfold XLRUCache.put
  split
  · rfl
  · cases alookup s.entries k <;> rfl

theorem XLRUCache.get_length (s : XLRUCache K V) (k : K) :
    (s.get k).1.entries.length = s.entries.length := by
  unfold XLRUCache.get
  cases h : alookup s.entries k with
  | none => rfl
  | some v =>
    have hmem := mem_akeys_of_alookup_eq_some h
    simp only [List.length_append, List.length_cons, List.length_nil,
      length_aerase_of_mem hmem]
    have : 1 ≤ s.entries.length := by
      rcases hs : s.entries with _ | _
      · rw [hs] at hmem; simp at hmem
      · simp [hs]
    omega

theorem XLRUCache.put_length_le {s : XLRUCache K V} (k : K) (v : V)
    (h : s.entries.length ≤ s.capacity) :
    (s.put k v).entries.length ≤ s.capacity := by
  unfold XLRUCache.put
  split
  · exact h
  · rename_i hcap
    cases hl : alookup s.entries k with
    | some v₀ =>
      have hmem := mem_akeys_of_alookup_eq_some hl
      simp only [List.length_append, List.length_cons, List.length_nil,
        length_aerase_of_mem hmem]
      have : 1 ≤ s.entries.length := by
        rcases hs : s.entries with _ | _
        · rw [hs] at hmem; simp at hmem
        · simp [hs]
      omega
    | none =>
      simp only
      split
      · rename_i hfull
        have h1 : s.entries.length = s.capacity := le_antisymm h hfull
        have h2 : 1 ≤ s.entries.length := by omega
        simp only [List.length_append, List.length_tail, List.length_cons,
          List.length_nil]
        omega
      · rename_i hnot
        simp only [List.length_append, List.length_cons, List.length_nil]
        omega

theorem XLRUCache.remove_length_le (s : XLRUCache K V) (k : K) :
    (s.remove k).entries.length ≤ s.entries.length :=
  length_aerase_le s.entries k

theorem XLRUCache.remove_capacity (s : XLRUCache K V) (k : K) :
    (s.remove k).capacity = s.capacity := rfl

theorem alookup_isSome_of_mem {l : List (K × V)} {k : K}
    (h : k ∈ akeys l) : (alookup l k).isSome := by
  induction l with
  | nil => simp at h
  | cons e t ih =>
    by_cases he : e.1 = k
    · simp [alookup_cons, he]
    · rw [akeys_cons, List.mem_cons] at h
      rcases h with h | h
      · exact absurd h.symm he
      · rw [alookup_cons, if_neg he]
        exact ih h

theorem not_mem_akeys_of_alookup_eq_none {l : List (K × V)} {k : K}
    (h : alookup l k = none) : k ∉ akeys l := by
  intro hmem
  have := alookup_isSome_of_mem hmem
  rw [h] at this
  simp at this

theorem alookup_aerase_append {l : List (K × V)} {k : K} (v : V)
    (hnd : (akeys l).Nodup) (x : K) :
    alookup (aerase l k ++ [(k, v)]) x = if x = k then some v else alookup l x := by
  rw [alookup_append]
  by_cases hx : x = k
  · subst hx
    rw [alookup_aerase_self hnd]
    simp [alookup_cons]
  · rw [alookup_aerase_ne hx]
    have hkx : ¬ k = x := fun h => hx h.symm
    cases h : alookup l x with
    | some v' => simp [hx]
    | none => simp [alookup_cons, hkx, hx]

theorem nodup_akeys_aerase_append {l : List (K × V)} {k : K} (v : V)
    (hnd : (akeys l).Nodup) : (akeys (aerase l k ++ [(k, v)])).Nodup := by
  rw [akeys_append]
  have h1 := nodup_akeys_aerase (k := k) hnd
  have h2 : k ∉ akeys (aerase l k) :=
    not_mem_akeys_of_alookup_eq_none (alookup_aerase_self hnd)
  simp only [akeys_cons, akeys_nil]
  rw [List.nodup_append]
  refine ⟨h1, List.nodup_singleton _, ?_⟩
  intro a ha hb
  simp at hb
  subst hb
  exact h2 ha

theorem XLRUCache.get_snd (s : XLRUCache K V) (k : K) :
    (s.get k).2 = alookup s.entries k := by
  unfold XLRUCache.get
  split <;> rename_i h <;> simp [h]

theorem XLRUCache.get_entries_hit {s : XLRUCache K V} {k : K} {v : V}
    (h : alookup s.entries k = some v) :
    (s.get k).1.entries = aerase s.entries k ++ [(k, v)] := by
  unfold XLRUCache.get
  rw [h]

theorem XLRUCache.get_entries_miss {s : XLRUCache K V} {k : K}
    (h : alookup s.entries k = none) : (s.get k).1 = s := by
  unfold XLRUCache.get
  rw [h]

theorem XLRUCache.get_lookup {s : XLRUCache K V} {k : K}
    (hnd : (akeys s.entries).Nodup) (x : K) :
    alookup (s.get k).1.entries x = alookup s.entries x := by
  cases h : alookup s.entries k with
  | none => rw [XLRUCache.get_entries_miss h]
  | some v =>
    rw [XLRUCache.get_entries_hit h, alookup_aerase_append v hnd]
    by_cases hx : x = k
    · subst hx; simp [h]
    · simp [hx]

theorem XLRUCache.get_nodup {s : XLRUCache K V} {k : K}
    (hnd : (akeys s.entries).Nodup) : (akeys (s.get k).1.entries).Nodup := by
  cases h : alookup s.entries k with
  | none => rw [XLRUCache.get_entries_miss h]; exact hnd
  | some v => rw [XLRUCache.get_entries_hit h]; exact nodup_akeys_aerase_append v hnd

theorem akeys_tail (l : List (K × V)) : akeys l.tail = (akeys l).tail := by
  cases l <;> rfl

theorem XLRUCache.put_lookup_self {s : XLRUCache K V} (k : K) (v : V)
    (hnd : (akeys s.entries).Nodup) (hcap : s.capacity ≠ 0) :
    alookup (s.put k v).entries k = some v := by
  unfold XLRUCache.put
  rw [if_neg hcap]
  cases h : alookup s.entries k with
  | some v₀ =>
    simp only
    rw [alookup_aerase_append v hnd k, if_pos rfl]
  | none =>
    have hnot : k ∉ akeys s.entries := not_mem_akeys_of_alookup_eq_none h
    simp only
    rw [alookup_append]
    have hremNone :
        alookup (if s.entries.length ≥ s.capacity then s.entries.tail
          else s.entries) k = none := by
      split
      · apply alookup_eq_none_of_not_mem_akeys
        intro hm
        rw [akeys_tail] at hm
        exact hnot (List.mem_of_mem_tail hm)
      · exact h
    rw [hremNone]
    simp [alookup_cons]

theorem XLRUCache.put_nodup {s : XLRUCache K V} (k : K) (v : V)
    (hnd : (akeys s.entries).Nodup) : (akeys (s.put k v).entries).Nodup := by
  unfold XLRUCache.put
  split
  · exact hnd
  · cases h : alookup s.entries k with
    | some v₀ => exact nodup_akeys_aerase_append v hnd
    | none =>
      have hnot : k ∉ akeys s.entries := not_mem_akeys_of_alookup_eq_none h
      simp only
      have hbase : ∀ r : List (K × V), r = s.entries.tail ∨ r = s.entries →
          (akeys (r ++ [(k, v)])).Nodup := by
        intro r hr
        have hk : k ∉ akeys r := by
          rcases hr with hr | hr
          · subst hr
            intro hm
            rw [akeys_tail] at hm
            exact hnot (List.mem_of_mem_tail hm)
          · subst hr; exact hnot
        have hn : (akeys r).Nodup := by
          rcases hr with hr | hr
          · subst hr; rw [akeys_tail]; exact hnd.tail
          · subst hr; exact hnd
        rw [akeys_append]
        simp only [akeys_cons, akeys_nil]
        rw [List.nodup_append]
        refine ⟨hn, List.nodup_singleton _, ?_⟩
        intro a ha hb
        simp at hb
        subst hb
        exact hk ha
      split
      · exact hbase _ (Or.inl rfl)
      · exact hbase _ (Or.inr rfl)

theorem XLRUCache.remove_lookup_self {s : XLRUCache K V} (k : K)
    (hnd : (akeys s.entries).Nodup) :
    alookup (s.remove k).entries k = none :=
  alookup_aerase_self hnd

theorem XLRUCache.remove_lookup_ne {s : XLRUCache K V} {k x : K} (h : x ≠ k) :
    alookup (s.remove k).entries x = alookup s.entries x :=
  alookup_aerase_ne h

theorem XLRUCache.remove_nodup {s : XLRUCache K V} (k : K)
    (hnd : (akeys s.entries).Nodup) : (akeys (s.remove k).entries).Nodup :=
  nodup_akeys_aerase hnd

end LRULemmas

section SketchLemmas

variable {K : Type}

theorem FrequencySketch.bumpAt_getD_le (cs : List Nat) (i j : Nat) :
    cs.getD j 0 ≤ (FrequencySketch.bumpAt cs i).getD j 0 := by
  induction cs generalizing i j with
  | nil => simp [FrequencySketch.bumpAt]
  | cons c cs ih =>
    cases i with
    | zero =>
      cases j with
      | zero =>
        show c ≤ List.getD (_ :: cs) 0 0
        simp only [FrequencySketch.bumpAt, List.getD_cons_zero]
        split <;> omega
      | succ j =>
        simp [FrequencySketch.bumpAt, List.getD_cons_succ]
    | succ i =>
      cases j with
      | zero => simp [FrequencySketch.bumpAt, List.getD_cons_zero]
      | succ j =>
        simp only [FrequencySketch.bumpAt, List.getD_cons_succ]
        exact ih i j

theorem FrequencySketch.bumpAt_bound {cs : List Nat} {i : Nat}
    (h : ∀ c ∈ cs, c ≤ 255) : ∀ c ∈ FrequencySketch.bumpAt cs i, c ≤ 255 := by
  induction cs generalizing i with
  | nil => simp [FrequencySketch.bumpAt]
  | cons c cs ih =>
    cases i with
    | zero =>
      intro x hx
      simp only [FrequencySketch.bumpAt, List.mem_cons] at hx
      rcases hx with hx | hx
      · have hc := h c (by simp)
        subst hx
        split <;> omega
      · exact h x (List.mem_cons_of_mem _ hx)
    | succ i =>
      intro x hx
      simp only [FrequencySketch.bumpAt, List.mem_cons] at hx
      rcases hx with hx | hx
      · exact h x (hx ▸ List.mem_cons_self _ _)
      · exact ih (fun c' hc' => h c' (List.mem_cons_of_mem _ hc')) x hx

theorem FrequencySketch.rowsCounter_increment_le (k' : K) (w : Nat)
    (rows : List (SketchRow K)) (i j : Nat) :
    FrequencySketch.rowsCounter rows i j ≤
      FrequencySketch.rowsCounter
        (rows.map (fun r => (r.1, FrequencySketch.bumpAt r.2 (r.1 k' % w)))) i j := by
  induction rows generalizing i with
  | nil => simp [FrequencySketch.rowsCounter]
  | cons r rs ih =>
    cases i with
    | zero =>
      simp only [List.map_cons, FrequencySketch.rowsCounter]
      exact FrequencySketch.bumpAt_getD_le r.2 (r.1 k' % w) j
    | succ i =>
      simp only [List.map_cons, FrequencySketch.rowsCounter]
      exact ih i

theorem FrequencySketch.freq_foldl_le (k k' : K) (w : Nat) (rows : List (SketchRow K)) :
    ∀ m m' : Nat, m ≤ m' →
      rows.foldl (fun a r => min a (r.2.getD (r.1 k % w) 0)) m ≤
        (rows.map (fun r => (r.1, FrequencySketch.bumpAt r.2 (r.1 k' % w)))).foldl
          (fun a r => min a (r.2.getD (r.1 k % w) 0)) m' := by
  induction rows with
  | nil => intro m m' h; simpa using h
  | cons r rs ih =>
    intro m m' h
    simp only [List.map_cons, List.foldl_cons]
    exact ih _ _ (min_le_min h (FrequencySketch.bumpAt_getD_le r.2 (r.1 k' % w) (r.1 k % w)))

theorem FrequencySketch.frequency_increment_le (s : FrequencySketch K) (k' k : K) :
    s.frequency k ≤ (s.increment k').frequency k :=
  FrequencySketch.freq_foldl_le k k' s.width s.rows _ _ le_rfl

theorem FrequencySketch.frequency_incrementList_le (s : FrequencySketch K)
    (ks : List K) (k : K) :
    s.frequency k ≤ (s.incrementList ks).frequency k := by
  induction ks generalizing s with
  | nil => exact le_rfl
  | cons k' ks ih =>
    exact le_trans (FrequencySketch.frequency_increment_le s k' k)
      (ih (s.increment k'))

theorem FrequencySketch.getCounter_increment_le (s : FrequencySketch K) (k' : K)
    (i j : Nat) : s.getCounter i j ≤ (s.increment k').getCounter i j :=
  FrequencySketch.rowsCounter_increment_le k' s.width s.rows i j

theorem FrequencySketch.getCounter_incrementList_le (s : FrequencySketch K)
    (ks : List K) (i j : Nat) :
    s.getCounter i j ≤ (s.incrementList ks).getCounter i j := by
  induction ks generalizing s with
  | nil => exact le_rfl
  | cons k' ks ih =>
    exact le_trans (FrequencySketch.getCounter_increment_le s k' i j)
      (ih (s.increment k'))

theorem FrequencySketch.counterBound_increment {s : FrequencySketch K} {k' : K}
    (h : s.counterBound 255) : (s.increment k').counterBound 255 := by
  intro r hr
  simp only [FrequencySketch.increment, List.mem_map] at hr
  obtain ⟨r₀, hr₀, rfl⟩ := hr
  exact FrequencySketch.bumpAt_bound (h r₀ hr₀)

theorem FrequencySketch.counterBound_incrementList {s : FrequencySketch K}
    {ks : List K} (h : s.counterBound 255) :
    (s.incrementList ks).counterBound 255 := by
  induction ks generalizing s with
  | nil => exact h
  | cons k' ks ih => exact ih (FrequencySketch.counterBound_increment h)

/-- C8: for every key `k`, `estimate(k)` (the `frequency` member) is
non-decreasing across any sequence of `increment` calls on any keys with no
intervening `decay()` or `reset()`; every per-row 8-bit counter never
decreases under `increment` and stays at most 255. -/
theorem claim_C8 (s : FrequencySketch K) (ks : List K) (k : K) :
    s.frequency k ≤ (s.incrementList ks).frequency k
    ∧ (∀ i j, s.getCounter i j ≤ (s.incrementList ks).getCounter i j)
    ∧ (s.counterBound 255 → (s.incrementList ks).counterBound 255) :=
  ⟨FrequencySketch.frequency_incrementList_le s ks k,
   fun i j => FrequencySketch.getCounter_incrementList_le s ks i j,
   fun h => FrequencySketch.counterBound_incrementList h⟩

/-- Witness for C8 at a concrete sketch, increment sequence and key. -/
theorem claim_C8_witness :
    (FrequencySketch.mk 4 [(fun x => x, [7, 0, 0, 255])] : FrequencySketch Nat).frequency 1 ≤
      ((FrequencySketch.mk 4 [(fun x => x, [7, 0, 0, 255])] :
        FrequencySketch Nat).incrementList [1, 5, 3]).frequency 1
    ∧ ((FrequencySketch.mk 4 [(fun x => x, [7, 0, 0, 255])] :
        FrequencySketch Nat).incrementList [1, 5, 3]).counterBound 255 := by
  have h := claim_C8 (FrequencySketch.mk 4 [(fun x => x, [7, 0, 0, 255])] :
    FrequencySketch Nat) [1, 5, 3] 1
  exact ⟨h.1, h.2.2 (by decide)⟩

end SketchLemmas

section LFULemmas

variable {K V : Type} [DecidableEq K] [Inhabited K]

theorem alookup_map_snd {β γ : Type} (l : List (K × β)) (g : β → γ) (k : K) :
    alookup (l.map (fun e => (e.1, g e.2))) k = (alookup l k).map g := by
  induction l with
  | nil => rfl
  | cons e t ih =>
    by_cases he : e.1 = k
    · simp [alookup_cons, he]
    · simp [alookup_cons, he, ih]

theorem foldl_min127_le (l : List (Nat × List K)) :
    ∀ acc : Nat,
      l.foldl (fun m b => if b.2.isEmpty then m else min m b.1) acc ≤ acc := by
  induction l with
  | nil => intro acc; exact le_rfl
  | cons b t ih =>
    intro acc
    refine le_trans (ih _) ?_
    by_cases hb : b.2.isEmpty
    · simp [hb]
    · simp [hb]

theorem XLFUCache.updateMinFreq_le (s : XLFUCache K V) :
    (XLFUCache.updateMinFreq s).minFreq ≤ 127 := by
  unfold XLFUCache.updateMinFreq
  simp only
  split
  · omega
  · exact foldl_min127_le s.freqMap 127

/-- C6: the literal LFU scenario S2: with capacity 3 and no aging pass,
after put(1,"a"), put(2,"b"), put(3,"c"), get(1), get(1), get(2), put(4,"d"),
the follow-up reads give get(3) = (false, _), get(1) = (true,"a"),
get(2) = (true,"b"), get(4) = (true,"d"). -/
theorem claim_C6 :
    (let s0 : XLFUCache Nat String := XLFUCache.mk' 3 1000000 10000 4 5
     let s7 := (((((((s0.put 1 "a").put 2 "b").put 3 "c").get 1).1.get 1).1.get
       2).1.put 4 "d")
     let g3 := s7.get 3
     let g1 := g3.1.get 1
     let g2 := g1.1.get 2
     let g4 := g2.1.get 4
     g3.2 = none ∧ g1.2 = some "a" ∧ g2.2 = some "b" ∧ g4.2 = some "d") := by
  decide

/-- C9: `updateMinFreq` starts its minimum at `INT8_MAX = 127`, so the
recomputed `minFreq` never exceeds 127; consequently the state reached from
`XLFUCache(1, 1000000, 145, 0.9)` by put(1,"a") followed by 144 get(1) calls
is full with its only resident frequency 130 > 127 (the proportional aging
pass fired at operation 145), and the subsequent put(2,"b") triggers the
eviction step, `kickout` removes no resident entry (key 1 stays), and the
call returns with 2 > capacity = 1 resident entries. -/
theorem claim_C9 :
    (∀ s : XLFUCache Nat String, (XLFUCache.updateMinFreq s).minFreq ≤ 127)
    ∧ (let sFull := (fun s => (XLFUCache.get s 1).1)^[144]
         ((XLFUCache.mk' 1 1000000 145 9 10 : XLFUCache Nat String).put 1 "a")
       sFull.capacity = 1
       ∧ sFull.nodeMap = [(1, "a", 130)]
       ∧ 127 < 130
       ∧ (sFull.put 2 "b").size = 2
       ∧ sFull.capacity < (sFull.put 2 "b").size
       ∧ alookup (sFull.put 2 "b").nodeMap 1 = some ("a", 130)
       ∧ alookup (sFull.put 2 "b").nodeMap 2 = some ("b", 1)) := by
  constructor
  · exact fun s => XLFUCache.updateMinFreq_le s
  · set_option maxRecDepth 1000000 in decide

/-- Witness for the universally quantified first part of C9 at a concrete
state. -/
theorem claim_C9_witness :
    (XLFUCache.updateMinFreq (XLFUCache.mk' 1 1000000 145 9 10 :
      XLFUCache Nat String)).minFreq ≤ 127 :=
  claim_C9.1 _

/-- Counterexample to C3: with `XLFUCache(1, maxAvgFreq = 2,
agingThreshold = 1000000, agingFactor = 0.5)`, after put(1,"a") and one
get(1) the resident frequency is 2 and `curTotalFreq = 2`; the next get(1)
raises the running mean to 3 > maxAverageFreq = 2, and the engine responds
with the proportional pass: the frequency becomes `max(1, ⌊3 · 0.5⌋) = 1`,
not the shift-down value `max(1, 3 − maxAverageFreq/2) = 2` the claim
requires. -/
theorem claim_C3_counterexample :
    (let mid := ((XLFUCache.mk' 1 2 1000000 1 2 : XLFUCache Nat String).put 1
      "a").get 1
     mid.1.freqOf 1 = some 2
     ∧ mid.1.curTotalFreq = 2
     ∧ mid.1.maxAverageFreq = 2
     ∧ (mid.1.get 1).1.curAverageFreq = 1
     ∧ (mid.1.get 1).1.freqOf 1 = some 1
     ∧ (1 : Nat) ≠ max 1 (3 - 2 / 2)) := by
  decide

theorem alookup_map_freq (l : List (K × V × Nat)) (g : Nat → Nat) (x : K) :
    alookup (l.map (fun e => (e.1, e.2.1, g e.2.2))) x =
      (alookup l x).map (fun p => (p.1, g p.2)) := by
  induction l with
  | nil => rfl
  | cons e t ih =>
    by_cases he : e.1 = x
    · simp [alookup_cons, he]
    · simp [alookup_cons, he, ih]

theorem XLFUCache.performAging_freqOf (s : XLFUCache K V)
    (hne : ¬ (s.nodeMap.isEmpty = true)) (x : K) :
    (s.performAging).freqOf x =
      (s.freqOf x).map (fun f => max 1 (f * s.afNum / s.afDen)) := by
  unfold XLFUCache.performAging
  rw [if_neg hne]
  show ((alookup (s.nodeMap.map
      (fun e => (e.1, e.2.1, XLFUCache.agedFreq s e.2.2))) x).map (fun p => p.2)) = _
  rw [alookup_map_freq s.nodeMap (XLFUCache.agedFreq s) x]
  unfold XLFUCache.freqOf XLFUCache.agedFreq
  cases alookup s.nodeMap x <;> rfl

theorem XLFUCache.addFreqNum_eq (s : XLFUCache K V) :
    s.addFreqNum =
      (let avg : Int := if s.nodeMap.isEmpty then 0
        else Int.tdiv (s.curTotalFreq + 1) (s.nodeMap.length : Int)
       let s1 := { s with curTotalFreq := s.curTotalFreq + 1,
                          operationCount := s.operationCount + 1,
                          curAverageFreq := avg }
       if (s.operationCount + 1) % s.agingThreshold = 0 ∨ avg > s.maxAverageFreq
       then s1.performAging else s1) := rfl

/-- C3 as amended: whenever an `addFreqNum` step fires an aging trigger —
either the operation-count trigger or the mean-frequency trigger — the
engine performs the *proportional* pass: every resident entry's frequency
becomes `max(1, ⌊f · agingFactor⌋)`.  The shift-down routine
`HandleOverMaxAvgFreq` is never invoked by the engine. -/
theorem claim_C3_amended (s : XLFUCache K V) (k : K) (p : V × Nat)
    (hres : alookup s.nodeMap k = some p)
    (htr : (s.operationCount + 1) % s.agingThreshold = 0 ∨
      (if s.nodeMap.isEmpty then 0
       else Int.tdiv (s.curTotalFreq + 1) (s.nodeMap.length : Int)) >
        s.maxAverageFreq) :
    ∀ x : K, (s.addFreqNum).freqOf x =
      (s.freqOf x).map (fun f => max 1 (f * s.afNum / s.afDen)) := by
  intro x
  have hne : ¬ (s.nodeMap.isEmpty = true) := by
    cases hnm : s.nodeMap with
    | nil => rw [hnm] at hres; simp at hres
    | cons e t => simp
  rw [XLFUCache.addFreqNum_eq]
  simp only
  rw [if_pos htr]
  rw [XLFUCache.performAging_freqOf _ (by simpa using hne) x]
  rfl

/-- Witness for C3-as-amended at a concrete state where the mean-frequency
trigger fires. -/
theorem claim_C3_amended_witness :
    (XLFUCache.addFreqNum
      { capacity := 1, maxAverageFreq := 2, agingThreshold := 1000000,
        afNum := 1, afDen := 2, minFreq := 2, curTotalFreq := 2,
        curAverageFreq := 2, operationCount := 2,
        nodeMap := [(1, "a", 2)], freqMap := [(1, []), (2, [1])] } :
      XLFUCache Nat String).freqOf 1 = some 1 := by
  have h := claim_C3_amended
    ({ capacity := 1, maxAverageFreq := 2, agingThreshold := 1000000,
       afNum := 1, afDen := 2, minFreq := 2, curTotalFreq := 2,
       curAverageFreq := 2, operationCount := 2,
       nodeMap := [(1, "a", 2)], freqMap := [(1, []), (2, [1])] } :
      XLFUCache Nat String) 1 ("a", 2) (by decide) (by decide)
  simpa using h 1

end LFULemmas

section LRUKLemmas

variable {K V : Type} [DecidableEq K] [Inhabited K] [Inhabited V]

/-- Counterexample to C7: `XLRUKCache(2, K = 2)`; after put(1,"a"),
put(1,"a") the key is resident in the main LRU and absent from the history
list, yet the subsequent get(1) — a main-cache hit — writes history count 1
for key 1: the history counter is bumped even on a main-cache hit. -/
theorem claim_C7_counterexample :
    (let s2 := ((XLRUKCache.mk' 2 2 : XLRUKCache Nat String).put 1 "a").put 1 "a"
     alookup s2.main.entries 1 = some "a"
     ∧ alookup s2.historyList.entries 1 = none
     ∧ (s2.get 1).2 = "a"
     ∧ alookup (s2.get 1).1.historyList.entries 1 = some 1) := by
  decide

/-- C7 as amended: on `get(k)` the main LRU is consulted first, but the
history access counter is incremented *unconditionally* — also on a
main-cache hit, where the hit value is returned and the history count still
becomes old-count + 1; when the key misses the main LRU and the incremented
count reaches K while a stashed value exists, the key is removed from both
history structures and promoted into the main LRU with the stashed value,
which is also returned. -/
theorem claim_C7_amended (s : XLRUKCache K V) (key : K)
    (hnodupM : (akeys s.main.entries).Nodup)
    (hnodupH : (akeys s.historyList.entries).Nodup)
    (hnodupHM : (akeys s.historyMap).Nodup)
    (hcapH : s.historyList.capacity ≠ 0) :
    (∀ v : V, alookup s.main.entries key = some v →
      (s.get key).2 = v ∧
        alookup (s.get key).1.historyList.entries key =
          some ((alookup s.historyList.entries key).getD 0 + 1))
    ∧ (∀ (w : V) (c : Nat), alookup s.main.entries key = none →
        alookup s.historyList.entries key = some c →
        s.k ≤ c + 1 → alookup s.historyMap key = some w →
        s.main.capacity ≠ 0 →
        (s.get key).2 = w
        ∧ alookup (s.get key).1.main.entries key = some w
        ∧ alookup (s.get key).1.historyList.entries key = none
        ∧ alookup (s.get key).1.historyMap key = none) := by
  have hcap1 : ((s.historyList.get key).1).capacity ≠ 0 := by
    rw [XLRUCache.get_fst_capacity]
    exact hcapH
  constructor
  · intro v hmain
    unfold XLRUKCache.get
    simp only
    rw [XLRUCache.get_snd s.main key, hmain]
    refine ⟨rfl, ?_⟩
    show alookup (((s.historyList.get key).1.put key
      ((s.historyList.get key).2.getD 0 + 1)).entries) key = _
    rw [XLRUCache.put_lookup_self key _ (XLRUCache.get_nodup hnodupH) hcap1,
      XLRUCache.get_snd s.historyList key]
  · intro w c hmain hhist hk hstash hcapM
    unfold XLRUKCache.get
    simp only
    rw [XLRUCache.get_snd s.main key, hmain, XLRUCache.get_snd s.historyList key,
      hhist]
    simp only [Option.getD_some]
    rw [if_pos hk, hstash]
    refine ⟨rfl, ?_, ?_, ?_⟩
    · show alookup (((s.main.get key).1.put key w).entries) key = some w
      rw [XLRUCache.get_entries_miss hmain]
      exact XLRUCache.put_lookup_self key w hnodupM hcapM
    · show alookup ((((s.historyList.get key).1.put key (c + 1)).remove
        key).entries) key = none
      exact XLRUCache.remove_lookup_self key
        (XLRUCache.put_nodup key (c + 1) (XLRUCache.get_nodup hnodupH))
    · show alookup (aerase s.historyMap key) key = none
      exact alookup_aerase_self hnodupHM

/-- Witness for C7-as-amended: a concrete state exercising the main-hit
branch (history counter bumped on a hit) and, at another input, the
promotion branch. -/
theorem claim_C7_amended_witness :
    (let s : XLRUKCache Nat String :=
      { main := ⟨2, [(1, "a")]⟩, k := 2, historyList := ⟨5, []⟩, historyMap := [] }
     (s.get 1).2 = "a" ∧ alookup (s.get 1).1.historyList.entries 1 = some 1) := by
  have h := (claim_C7_amended
    ({ main := ⟨2, [(1, "a")]⟩, k := 2, historyList := ⟨5, []⟩, historyMap := [] } :
      XLRUKCache Nat String) 1 (by decide) (by decide) (by decide)
      (by decide)).1 "a" (by decide)
  exact ⟨h.1, by simpa using h.2⟩

end LRUKLemmas

section WTinyLFULemmas

variable {K V : Type} [DecidableEq K] [Inhabited K]

theorem aerase_append_not_mem {l₁ : List (K × V)} (l₂ : List (K × V)) {k : K}
    (h : k ∉ akeys l₁) : aerase (l₁ ++ l₂) k = l₁ ++ aerase l₂ k := by
  induction l₁ with
  | nil => simp
  | cons e t ih =>
    have h1 : ¬ e.1 = k := by
      intro he
      exact h (by simp [he])
    have h2 : k ∉ akeys t := by
      intro ht
      exact h (by simp [ht])
    simp only [List.cons_append, aerase_cons, if_neg h1]
    rw [ih h2]

theorem XLRUCache.put_lookup_absent {s : XLRUCache K V} {k x : K} (v : V)
    (hx : x ∉ akeys s.entries) (hxk : x ≠ k) :
    alookup (s.put k v).entries x = none := by
  have hkx : ¬ k = x := fun hh => hxk hh.symm
  unfold XLRUCache.put
  split
  · exact alookup_eq_none_of_not_mem_akeys hx
  · cases h : alookup s.entries k with
    | some v₀ =>
      simp only
      rw [alookup_append]
      have h1 : alookup (aerase s.entries k) x = none := by
        apply alookup_eq_none_of_not_mem_akeys
        intro hm
        exact hx ((akeys_aerase_sublist s.entries k).subset hm)
      rw [h1]
      simp [alookup_cons, hkx]
    | none =>
      simp only
      rw [alookup_append]
      have h1 : alookup (if s.entries.length ≥ s.capacity then s.entries.tail
          else s.entries) x = none := by
        apply alookup_eq_none_of_not_mem_akeys
        intro hm
        apply hx
        revert hm
        split
        · intro hm
          rw [akeys_tail] at hm
          exact List.mem_of_mem_tail hm
        · intro hm
          exact hm
      rw [h1]
      simp [alookup_cons, hkx]

theorem XWTinyLFUCache.ensureVictimCapacity_loss_eq (s : XWTinyLFUCache K V)
    (kw : K) (vw : V) (kc : K) (vcv : V) (t : List (K × V))
    (hvict : s.victimCache.entries = (kc, vcv) :: t)
    (hlen : ¬ (s.victimCache.size < s.victimCapacity))
    (hloss : ¬ (s.sketchAtComparison.frequency kw ≥ s.sketchAtComparison.frequency kc)) :
    s.ensureVictimCapacity kw vw =
      { s with operationCount := s.operationCount + 1,
               frequencySketch := s.sketchAtComparison,
               victimCache := { s.victimCache with entries := t ++ [(kc, vcv)] },
               admissionLosses := s.admissionLosses + 1 } := by
  unfold XWTinyLFUCache.ensureVictimCapacity
  simp only
  rw [if_neg hlen]
  have hold : s.victimCache.getOldestKey = kc := by
    unfold XLRUCache.getOldestKey
    rw [hvict]
  rw [hold]
  have hlk : alookup s.victimCache.entries kc = some vcv := by
    rw [hvict, alookup_cons]
    simp
  have hget : s.victimCache.get kc =
      ({ s.victimCache with entries := t ++ [(kc, vcv)] }, some vcv) := by
    unfold XLRUCache.get
    rw [hlk, hvict, aerase_cons]
    simp
  rw [hget]
  simp only
  unfold XWTinyLFUCache.sketchAtComparison at hloss ⊢
  rw [if_neg hloss]

theorem XWTinyLFUCache.ensureVictimCapacity_win_eq (s : XWTinyLFUCache K V)
    (kw : K) (vw : V) (kc : K) (vcv : V) (t : List (K × V))
    (hvict : s.victimCache.entries = (kc, vcv) :: t)
    (hlen : ¬ (s.victimCache.size < s.victimCapacity))
    (hwin : s.sketchAtComparison.frequency kw ≥ s.sketchAtComparison.frequency kc) :
    s.ensureVictimCapacity kw vw =
      { s with operationCount := s.operationCount + 1,
               frequencySketch := s.sketchAtComparison,
               victimCache :=
                 ({ s.victimCache with entries := t ++ [(kc, vcv)] }.remove kc).put kw vw,
               admissionWins := s.admissionWins + 1 } := by
  unfold XWTinyLFUCache.ensureVictimCapacity
  simp only
  rw [if_neg hlen]
  have hold : s.victimCache.getOldestKey = kc := by
    unfold XLRUCache.getOldestKey
    rw [hvict]
  rw [hold]
  have hlk : alookup s.victimCache.entries kc = some vcv := by
    rw [hvict, alookup_cons]
    simp
  have hget : s.victimCache.get kc =
      ({ s.victimCache with entries := t ++ [(kc, vcv)] }, some vcv) := by
    unfold XLRUCache.get
    rw [hlk, hvict, aerase_cons]
    simp
  rw [hget]
  simp only
  unfold XWTinyLFUCache.sketchAtComparison at hwin ⊢
  rw [if_pos hwin]

theorem XWTinyLFUCache.ensureWindowCapacity_eq (s : XWTinyLFUCache K V)
    (kw : K) (vw : V) (wt : List (K × V))
    (hfullW : s.windowCache.size ≥ s.windowCapacity)
    (hwin : s.windowCache.entries = (kw, vw) :: wt)
    (hnodupW : (akeys s.windowCache.entries).Nodup) :
    s.ensureWindowCapacity =
      XWTinyLFUCache.ensureVictimCapacity
        { s with windowCache := { s.windowCache with entries := wt } } kw vw := by
  unfold XWTinyLFUCache.ensureWindowCapacity
  rw [if_pos hfullW]
  have hold : s.windowCache.getOldestKey = kw := by
    unfold XLRUCache.getOldestKey
    rw [hwin]
  rw [hold]
  simp only
  have hkw_wt : kw ∉ akeys wt := by
    rw [hwin, akeys_cons, List.nodup_cons] at hnodupW
    exact hnodupW.1
  have hlk : alookup s.windowCache.entries kw = some vw := by
    rw [hwin, alookup_cons]
    simp
  have hget : s.windowCache.get kw =
      ({ s.windowCache with entries := wt ++ [(kw, vw)] }, some vw) := by
    unfold XLRUCache.get
    rw [hlk, hwin, aerase_cons]
    simp
  rw [hget]
  simp only
  have hrem : ({ s.windowCache with entries := wt ++ [(kw, vw)] } :
      XLRUCache K V).remove kw = { s.windowCache with entries := wt } := by
    unfold XLRUCache.remove
    rw [aerase_append_not_mem _ hkw_wt, aerase_cons]
    simp
  rw [hrem]

theorem XWTinyLFUCache.put_newKey_eq (s : XWTinyLFUCache K V) (k : K) (v : V)
    (kw : K) (vw : V) (wt : List (K × V))
    (hcap0 : s.totalCapacity ≠ 0)
    (hkW : alookup s.windowCache.entries k = none)
    (hkV : alookup s.victimCache.entries k = none)
    (hfullW : s.windowCache.size ≥ s.windowCapacity)
    (hwin : s.windowCache.entries = (kw, vw) :: wt)
    (hnodupW : (akeys s.windowCache.entries).Nodup) :
    s.put k v =
      (let s4 := XWTinyLFUCache.ensureVictimCapacity
        { s with frequencySketch := s.frequencySketch.increment k,
                 windowCache := { s.windowCache with entries := wt } } kw vw
       { s4 with windowCache := s4.windowCache.put k v }) := by
  unfold XWTinyLFUCache.put
  simp only
  rw [if_neg hcap0]
  have hwget : s.windowCache.get k = (s.windowCache, none) := by
    unfold XLRUCache.get
    rw [hkW]
  have hvget : s.victimCache.get k = (s.victimCache, none) := by
    unfold XLRUCache.get
    rw [hkV]
  rw [hwget]
  simp only [Option.isSome_none, Bool.false_eq_true, if_false]
  rw [hvget]
  simp only [Option.isSome_none, Bool.false_eq_true, if_false]
  have heq := XWTinyLFUCache.ensureWindowCapacity_eq
    ({ s with frequencySketch := s.frequencySketch.increment k }) kw vw wt
    hfullW hwin hnodupW
  rw [heq]

/-- C10: when the admission procedure rejects the window-evicted key, the
victim's key set and stored values are unchanged and its size is unchanged,
but the compared candidate has been moved to the most-recent end by the
lookup done for the comparison, so with at least two resident entries the
victim's oldest key after the call differs from its oldest key before. -/
theorem claim_C10 (s : XWTinyLFUCache K V) (kw : K) (vw : V) (kc : K)
    (vcv : V) (t : List (K × V))
    (hvict : s.victimCache.entries = (kc, vcv) :: t)
    (hlen : ¬ (s.victimCache.size < s.victimCapacity))
    (h2 : 1 ≤ t.length)
    (hnodup : (akeys s.victimCache.entries).Nodup)
    (hloss : s.sketchAtComparison.frequency kw < s.sketchAtComparison.frequency kc) :
    (∀ x : K, alookup (s.ensureVictimCapacity kw vw).victimCache.entries x =
        alookup s.victimCache.entries x)
    ∧ (s.ensureVictimCapacity kw vw).victimCache.entries.length =
        s.victimCache.entries.length
    ∧ (s.ensureVictimCapacity kw vw).victimCache.getOldestKey ≠
        s.victimCache.getOldestKey
    ∧ (s.ensureVictimCapacity kw vw).admissionLosses = s.admissionLosses + 1 := by
  rw [XWTinyLFUCache.ensureVictimCapacity_loss_eq s kw vw kc vcv t hvict hlen
    (by omega)]
  have hnd : (akeys ((kc, vcv) :: t)).Nodup := hvict ▸ hnodup
  have hkc_t : kc ∉ akeys t := by
    rw [akeys_cons, List.nodup_cons] at hnd
    exact hnd.1
  refine ⟨?_, ?_, ?_, rfl⟩
  · intro x
    show alookup (t ++ [(kc, vcv)]) x = _
    rw [hvict]
    have hmh := alookup_aerase_append (l := (kc, vcv) :: t) (k := kc) vcv hnd x
    rw [aerase_cons, if_pos rfl] at hmh
    rw [hmh]
    by_cases hx : x = kc
    · subst hx
      rw [alookup_cons]
      simp
    · rw [if_neg hx]
  · show (t ++ [(kc, vcv)]).length = _
    rw [hvict]
    simp
  · show ({ s.victimCache with entries := t ++ [(kc, vcv)] } :
      XLRUCache K V).getOldestKey ≠ s.victimCache.getOldestKey
    have holdold : s.victimCache.getOldestKey = kc := by
      unfold XLRUCache.getOldestKey
      rw [hvict]
    rw [holdold]
    cases ht : t with
    | nil =>
      rw [ht] at h2
      simp at h2
    | cons e2 t' =>
      show (XLRUCache.getOldestKey
        ⟨s.victimCache.capacity, (e2 :: t') ++ [(kc, vcv)]⟩) ≠ kc
      unfold XLRUCache.getOldestKey
      simp only [List.cons_append]
      intro he
      apply hkc_t
      rw [ht, ← he]
      simp

/-- Witness for C10 at the concrete state `wtExample`: the rejected key 5
leaves the victim's mapping intact (checked at key 2) while the oldest key
changes. -/
theorem claim_C10_witness :
    ((wtExample.ensureVictimCapacity 5 "v5").victimCache.getOldestKey ≠
      wtExample.victimCache.getOldestKey)
    ∧ alookup (wtExample.ensureVictimCapacity 5 "v5").victimCache.entries 2 =
        alookup wtExample.victimCache.entries 2 := by
  have h := claim_C10 wtExample 5 "v5" 1 "a" [(2, "b")] (by decide) (by decide)
    (by decide) (by decide) (by decide)
  exact ⟨h.2.2.1, h.1 2⟩

/-- C4: when a `put` of a fresh key runs the admission procedure with the
victim sub-cache full, then — writing `kw` for the window-evicted key and
`kc` for the victim's oldest key — if the sketch estimate of `kw` at the
moment of comparison is strictly below that of `kc`, `kw` is discarded
(resident in neither window nor victim) while `kc` stays resident; if the
estimate of `kw` is at least that of `kc`, `kc` is evicted and `kw` is
inserted into the victim. -/
theorem claim_C4 (s : XWTinyLFUCache K V) (k : K) (v : V) (kw : K) (vw : V)
    (wt : List (K × V)) (kc : K) (vcv : V) (vt : List (K × V))
    (hcap0 : s.totalCapacity ≠ 0)
    (hkW : alookup s.windowCache.entries k = none)
    (hkV : alookup s.victimCache.entries k = none)
    (hfullW : s.windowCache.size ≥ s.windowCapacity)
    (hwin : s.windowCache.entries = (kw, vw) :: wt)
    (hnodupW : (akeys s.windowCache.entries).Nodup)
    (hvict : s.victimCache.entries = (kc, vcv) :: vt)
    (hsizeV : s.victimCache.size = s.victimCapacity)
    (hnodupV : (akeys s.victimCache.entries).Nodup)
    (hkwV : alookup s.victimCache.entries kw = none)
    (hcapV : s.victimCache.capacity = s.victimCapacity) :
    ((s.putComparisonSketch k).frequency kw < (s.putComparisonSketch k).frequency kc →
       alookup (s.put k v).windowCache.entries kw = none
       ∧ alookup (s.put k v).victimCache.entries kw = none
       ∧ alookup (s.put k v).victimCache.entries kc = some vcv)
    ∧ ((s.putComparisonSketch k).frequency kc ≤ (s.putComparisonSketch k).frequency kw →
       alookup (s.put k v).victimCache.entries kc = none
       ∧ alookup (s.put k v).victimCache.entries kw = some vw) := by
  have hkw_wt : kw ∉ akeys wt := by
    rw [hwin, akeys_cons, List.nodup_cons] at hnodupW
    exact hnodupW.1
  have hkc_vt : kc ∉ akeys vt := by
    rw [hvict, akeys_cons, List.nodup_cons] at hnodupV
    exact hnodupV.1
  have hkwk : kw ≠ k := by
    intro he
    rw [hwin, alookup_cons, if_pos he] at hkW
    simp at hkW
  have hkwV' : kw ∉ akeys s.victimCache.entries :=
    not_mem_akeys_of_alookup_eq_none hkwV
  have hkckw : ¬ kc = kw := by
    intro he
    apply hkwV'
    rw [hvict, ← he]
    simp
  have hkw_vt : kw ∉ akeys vt := by
    intro hm
    apply hkwV'
    rw [hvict]
    simp [hm]
  have hszV : vt.length + 1 = s.victimCapacity := by
    have : s.victimCache.entries.length = s.victimCapacity := hsizeV
    rw [hvict] at this
    simpa using this
  have hvc0 : ¬ (s.victimCache.capacity = 0) := by
    rw [hcapV]
    omega
  rw [XWTinyLFUCache.put_newKey_eq s k v kw vw wt hcap0 hkW hkV hfullW hwin
    hnodupW]
  simp only
  have hvict' : ({ s with frequencySketch := s.frequencySketch.increment k,
                           windowCache := { s.windowCache with entries := wt } } :
      XWTinyLFUCache K V).victimCache.entries = (kc, vcv) :: vt := hvict
  have hlen' : ¬ (({ s with frequencySketch := s.frequencySketch.increment k,
                            windowCache := { s.windowCache with entries := wt } } :
      XWTinyLFUCache K V).victimCache.size <
      ({ s with frequencySketch := s.frequencySketch.increment k,
                windowCache := { s.windowCache with entries := wt } } :
        XWTinyLFUCache K V).victimCapacity) := by
    show ¬ (s.victimCache.size < s.victimCapacity)
    have : s.victimCache.size = s.victimCapacity := hsizeV
    omega
  constructor
  · intro hloss
    have hl := XWTinyLFUCache.ensureVictimCapacity_loss_eq
      ({ s with frequencySketch := s.frequencySketch.increment k,
                windowCache := { s.windowCache with entries := wt } })
      kw vw kc vcv vt hvict' hlen'
      (by show ¬ ((s.putComparisonSketch k).frequency kw ≥
            (s.putComparisonSketch k).frequency kc)
          omega)
    rw [hl]
    simp only
    refine ⟨?_, ?_, ?_⟩
    · exact XLRUCache.put_lookup_absent v hkw_wt hkwk
    · show alookup (vt ++ [(kc, vcv)]) kw = none
      rw [alookup_append, alookup_eq_none_of_not_mem_akeys hkw_vt]
      simp [alookup_cons, hkckw]
    · show alookup (vt ++ [(kc, vcv)]) kc = some vcv
      rw [alookup_append, alookup_eq_none_of_not_mem_akeys hkc_vt]
      simp [alookup_cons]
  · intro hwge
    have hw := XWTinyLFUCache.ensureVictimCapacity_win_eq
      ({ s with frequencySketch := s.frequencySketch.increment k,
                windowCache := { s.windowCache with entries := wt } })
      kw vw kc vcv vt hvict' hlen'
      (by show (s.putComparisonSketch k).frequency kw ≥
            (s.putComparisonSketch k).frequency kc
          exact hwge)
    rw [hw]
    simp only
    have hremv : ({ s.victimCache with entries := vt ++ [(kc, vcv)] } :
        XLRUCache K V).remove kc = { s.victimCache with entries := vt } := by
      unfold XLRUCache.remove
      rw [aerase_append_not_mem _ hkc_vt, aerase_cons]
      simp
    rw [hremv]
    have hput : ({ s.victimCache with entries := vt } : XLRUCache K V).put kw vw
        = { s.victimCache with entries := vt ++ [(kw, vw)] } := by
      unfold XLRUCache.put
      rw [if_neg hvc0, alookup_eq_none_of_not_mem_akeys hkw_vt]
      simp only
      have hlt : ¬ (vt.length ≥ s.victimCache.capacity) := by
        rw [hcapV]
        omega
      rw [if_neg hlt]
    rw [hput]
    constructor
    · show alookup (vt ++ [(kw, vw)]) kc = none
      rw [alookup_append, alookup_eq_none_of_not_mem_akeys hkc_vt]
      have hkwkc : ¬ kw = kc := fun hh => hkckw hh.symm
      simp [alookup_cons, hkwkc]
    · show alookup (vt ++ [(kw, vw)]) kw = some vw
      rw [alookup_append, alookup_eq_none_of_not_mem_akeys hkw_vt]
      simp [alookup_cons]

/-- Witness for C4 at the concrete state `wtExample`: putting the fresh key
6 evicts window key 5, whose estimate 0 loses against victim-oldest key 1
with estimate 3, so key 5 ends resident nowhere and key 1 survives. -/
theorem claim_C4_witness :
    ((wtExample.putComparisonSketch 6).frequency 5 <
      (wtExample.putComparisonSketch 6).frequency 1)
    ∧ alookup (wtExample.put 6 "v6").windowCache.entries 5 = none
    ∧ alookup (wtExample.put 6 "v6").victimCache.entries 5 = none
    ∧ alookup (wtExample.put 6 "v6").victimCache.entries 1 = some "a" := by
  have h := claim_C4 wtExample 6 "v6" 5 "v5" [] 1 "a" [(2, "b")]
    (by decide) (by decide) (by decide) (by decide) (by decide) (by decide)
    (by decide) (by decide) (by decide) (by decide) (by decide)
  refine ⟨by decide, h.1 (by decide)⟩

end WTinyLFULemmas

section AdaptiveLemmas

variable {ε : Type}

theorem map_hitRateOf_getD (l : List (Nat × Nat)) (i : Nat) :
    (l.map XAdaptiveCache.hitRateOf).getD i 0 =
      XAdaptiveCache.hitRateOf (l.getD i (0, 0)) := by
  induction l generalizing i with
  | nil =>
    simp [XAdaptiveCache.hitRateOf]
  | cons p t ih =>
    cases i with
    | zero => simp
    | succ i => simpa using ih i

theorem bestStrategyOf_spec (hitRates : List ℚ) (hlen : hitRates.length = 4) :
    (XAdaptiveCache.bestStrategyOf hitRates).1 < 4
    ∧ (XAdaptiveCache.bestStrategyOf hitRates).2 =
        hitRates.getD (XAdaptiveCache.bestStrategyOf hitRates).1 0
    ∧ ∀ i < 4, hitRates.getD i 0 ≤ (XAdaptiveCache.bestStrategyOf hitRates).2 := by
  unfold XAdaptiveCache.bestStrategyOf
  rw [hlen]
  have hdrop : (List.range 4).drop 1 = [1, 2, 3] := rfl
  rw [hdrop]
  simp only [List.foldl_cons, List.foldl_nil]
  split_ifs <;>
    refine ⟨by norm_num, rfl, ?_⟩ <;>
    · intro i hi
      interval_cases i <;> simp_all <;> linarith

theorem XAdaptiveCache.evaluateAndSwitchStrategy_spec (s : XAdaptiveCache ε) :
    (s.evaluateAndSwitchStrategy).strategyPerformance = s.strategyPerformance
    ∧ (s.evaluateAndSwitchStrategy).evaluationCount = s.evaluationCount + 1
    ∧ ((s.evaluationCount + 1) % 1000 ≠ 0 →
        (s.evaluateAndSwitchStrategy).currentStrategy = s.currentStrategy)
    ∧ ((s.evaluationCount + 1) % 1000 = 0 →
        (s.evaluateAndSwitchStrategy).currentStrategy =
          (if (XAdaptiveCache.bestStrategyOf (s.strategyPerformance.map
                XAdaptiveCache.hitRateOf)).2 >
              (s.strategyPerformance.map XAdaptiveCache.hitRateOf).getD
                s.currentStrategy 0 + s.switchThreshold
           then (XAdaptiveCache.bestStrategyOf (s.strategyPerformance.map
                XAdaptiveCache.hitRateOf)).1
           else s.currentStrategy)) := by
  unfold XAdaptiveCache.evaluateAndSwitchStrategy
  simp only
  by_cases hmod : (s.evaluationCount + 1) % 1000 ≠ 0
  · rw [if_pos hmod]
    exact ⟨rfl, rfl, fun _ => rfl, fun h => absurd h hmod⟩
  · rw [if_neg hmod]
    push_neg at hmod
    refine ⟨?_, ?_, fun h => absurd hmod h, fun _ => ?_⟩
    · split <;> rfl
    · split <;> rfl
    · split <;> rfl

end AdaptiveLemmas

section AdaptiveClaim

variable {ε K V : Type} [Inhabited V]

/-- C5: the coordinator's `get` bumps the evaluation counter by one and
consults the switch predicate exactly at every 1000th call; per-engine
(hits, totals) counters are updated by this call and never reset (also when
a switch occurs); at an evaluation the serving engine changes exactly when
some engine's running hit-rate exceeds the serving engine's by more than
the 0.02 threshold, and then the new serving engine is an arg-max of the
hit-rates; the constructor sets the threshold to 0.02 = 1/50. -/
theorem claim_C5 (step : ε → K → ε × Bool × V) (s : XAdaptiveCache ε) (key : K)
    (hthr : s.switchThreshold = 1 / 50) :
    (let s' := (XAdaptiveCache.get step s key).1
     let hits := (s.engines.map (fun e => step e key)).map (fun r => r.2.1)
     let perf1 := List.zipWith (fun p h => (p.1 + if h then 1 else 0, p.2 + 1))
       s.strategyPerformance hits
     let hr := fun i : Nat => XAdaptiveCache.hitRateOf (perf1.getD i (0, 0))
     s'.strategyPerformance = perf1
     ∧ s'.evaluationCount = s.evaluationCount + 1
     ∧ ((s.evaluationCount + 1) % 1000 ≠ 0 →
         s'.currentStrategy = s.currentStrategy)
     ∧ (perf1.length = 4 → (s.evaluationCount + 1) % 1000 = 0 →
         ((∀ i < 4, hr i ≤ hr s.currentStrategy + 1 / 50) →
             s'.currentStrategy = s.currentStrategy)
         ∧ ((∃ i, i < 4 ∧ hr i > hr s.currentStrategy + 1 / 50) →
             s'.currentStrategy ≠ s.currentStrategy
             ∧ ∀ i < 4, hr i ≤ hr s'.currentStrategy)))
    ∧ (∀ es : List ε, (XAdaptiveCache.mk' es : XAdaptiveCache ε).switchThreshold
        = 1 / 50) := by
  refine ⟨?_, fun es => rfl⟩
  simp only
  have hs' : (XAdaptiveCache.get step s key).1 =
      XAdaptiveCache.evaluateAndSwitchStrategy
        { s with
          engines := (s.engines.map (fun e => step e key)).map Prod.fst,
          strategyPerformance := List.zipWith
            (fun p h => (p.1 + if h then 1 else 0, p.2 + 1))
            s.strategyPerformance
            ((s.engines.map (fun e => step e key)).map (fun r => r.2.1)) } := rfl
  rw [hs']
  have hspec := XAdaptiveCache.evaluateAndSwitchStrategy_spec
    { s with
      engines := (s.engines.map (fun e => step e key)).map Prod.fst,
      strategyPerformance := List.zipWith
        (fun p h => (p.1 + if h then 1 else 0, p.2 + 1)) s.strategyPerformance
        ((s.engines.map (fun e => step e key)).map (fun r => r.2.1)) }
  simp only at hspec
  refine ⟨hspec.1, hspec.2.1, hspec.2.2.1, ?_⟩
  intro hlen4 htick
  have hcur := hspec.2.2.2 htick
  have hmaps :
      ∀ i : Nat,
        ((List.zipWith (fun p h => (p.1 + if h then 1 else 0, p.2 + 1))
            s.strategyPerformance
            ((s.engines.map (fun e => step e key)).map (fun r => r.2.1))).map
          XAdaptiveCache.hitRateOf).getD i 0 =
          XAdaptiveCache.hitRateOf
            ((List.zipWith (fun p h => (p.1 + if h then 1 else 0, p.2 + 1))
              s.strategyPerformance
              ((s.engines.map (fun e => step e key)).map (fun r => r.2.1))).getD i
              (0, 0)) :=
    fun i => map_hitRateOf_getD _ i
  have hbest := bestStrategyOf_spec
    ((List.zipWith (fun p h => (p.1 + if h then 1 else 0, p.2 + 1))
        s.strategyPerformance
        ((s.engines.map (fun e => step e key)).map (fun r => r.2.1))).map
      XAdaptiveCache.hitRateOf)
    (by simpa using hlen4)
  have h1 := hbest.2.1
  rw [hmaps] at h1
  constructor
  · intro hall
    have h2 := hall _ hbest.1
    have hcond : ¬ ((XAdaptiveCache.bestStrategyOf
        ((List.zipWith (fun p h => (p.1 + if h then 1 else 0, p.2 + 1))
            s.strategyPerformance
            ((s.engines.map (fun e => step e key)).map (fun r => r.2.1))).map
          XAdaptiveCache.hitRateOf)).2 >
        ((List.zipWith (fun p h => (p.1 + if h then 1 else 0, p.2 + 1))
            s.strategyPerformance
            ((s.engines.map (fun e => step e key)).map (fun r => r.2.1))).map
          XAdaptiveCache.hitRateOf).getD s.currentStrategy 0 +
          s.switchThreshold) := by
      rw [hthr, hmaps s.currentStrategy, h1]
      linarith
    rw [if_neg hcond] at hcur
    exact hcur
  · rintro ⟨i, hi, hgt⟩
    have h3 := hbest.2.2 i hi
    rw [hmaps] at h3
    have hcond : (XAdaptiveCache.bestStrategyOf
        ((List.zipWith (fun p h => (p.1 + if h then 1 else 0, p.2 + 1))
            s.strategyPerformance
            ((s.engines.map (fun e => step e key)).map (fun r => r.2.1))).map
          XAdaptiveCache.hitRateOf)).2 >
        ((List.zipWith (fun p h => (p.1 + if h then 1 else 0, p.2 + 1))
            s.strategyPerformance
            ((s.engines.map (fun e => step e key)).map (fun r => r.2.1))).map
          XAdaptiveCache.hitRateOf).getD s.currentStrategy 0 +
          s.switchThreshold := by
      rw [hthr, hmaps s.currentStrategy]
      linarith
    rw [if_pos hcond] at hcur
    rw [hcur]
    rw [hthr, hmaps s.currentStrategy] at hcond
    constructor
    · intro heqc
      rw [heqc] at h1
      rw [h1] at hcond
      linarith
    · intro j hj
      have h4 := hbest.2.2 j hj
      rw [hmaps] at h4
      rw [h1] at h4
      exact h4

end AdaptiveClaim

/-- Witness for C5 at a concrete coordinator state on its 1000th call:
engine 0's hit-rate 1 beats the serving engine 1's rate 0 by more than
1/50, so the serving strategy changes and the counters are the updated,
un-reset ones. -/
theorem claim_C5_witness :
    (let s : XAdaptiveCache Bool :=
      { engines := [true, false, false, false],
        strategyPerformance := [(10, 10), (0, 10), (0, 10), (0, 10)],
        currentStrategy := 1, switchThreshold := 1 / 50, evaluationCount := 999 }
     let s' := (XAdaptiveCache.get (fun e (_ : Nat) => (e, e, (0 : Nat))) s 5).1
     s'.evaluationCount = 1000
     ∧ s'.currentStrategy ≠ 1
     ∧ s'.strategyPerformance = [(11, 11), (0, 11), (0, 11), (0, 11)]) := by
  have h := claim_C5 (fun e (_ : Nat) => (e, e, (0 : Nat)))
    ({ engines := [true, false, false, false],
       strategyPerformance := [(10, 10), (0, 10), (0, 10), (0, 10)],
       currentStrategy := 1, switchThreshold := 1 / 50, evaluationCount := 999 } :
      XAdaptiveCache Bool) 5 rfl
  have hm := h.1
  simp only at hm
  refine ⟨hm.2.1, ?_, ?_⟩
  · exact (hm.2.2.2 (by decide) (by decide) |>.2 ⟨0, by norm_num, by norm_num [XAdaptiveCache.hitRateOf]⟩).1
  · exact hm.1.trans (by decide)

end XCache

namespace XCache

section ArcLemmas

variable {V : Type}

theorem XArcLRUpart.evictLeastRecent_capacity (p : XArcLRUpart V) :
    (p.evictLeastRecent).capacity = p.capacity := by
  unfold XArcLRUpart.evictLeastRecent
  split <;> rfl

theorem XArcLRUpart.evictLeastRecent_length {p : XArcLRUpart V}
    (h : p.mainCache ≠ []) :
    (p.evictLeastRecent).mainCache.length = p.mainCache.length - 1 := by
  unfold XArcLRUpart.evictLeastRecent
  cases hl : p.mainCache.getLast? with
  | none =>
    rw [List.getLast?_eq_none_iff] at hl
    exact absurd hl h
  | some e =>
    simp [List.length_dropLast]

theorem XArcLRUpart.putR_capacity (p : XArcLRUpart V) (k : Nat) (v : V) :
    (p.put k v).capacity = p.capacity := by
  unfold XArcLRUpart.put
  split
  · rfl
  · cases hl : alookup p.mainCache k with
    | some pr => rfl
    | none =>
      simp only
      split
      · show (XArcLRUpart.evictLeastRecent p).capacity = p.capacity
        exact XArcLRUpart.evictLeastRecent_capacity p
      · rfl

theorem XArcLRUpart.put_size_le {p : XArcLRUpart V} (k : Nat) (v : V)
    (h : p.mainCache.length ≤ p.capacity) :
    (p.put k v).mainCache.length ≤ p.capacity := by
  unfold XArcLRUpart.put
  split
  · exact h
  · rename_i hcap
    cases hl : alookup p.mainCache k with
    | some pr =>
      simp only
      have hmem := mem_akeys_of_alookup_eq_some hl
      rw [List.length_cons, length_aerase_of_mem hmem]
      have h1 : 1 ≤ p.mainCache.length := by
        rcases hm : p.mainCache with _ | _
        · rw [hm] at hmem; simp at hmem
        · simp [hm]
      omega
    | none =>
      simp only
      split
      · rename_i hfull
        have hne : p.mainCache ≠ [] := by
          intro hnil
          rw [hnil] at hfull
          simp at hfull
          omega
        rw [List.length_cons, XArcLRUpart.evictLeastRecent_length hne]
        omega
      · rename_i hnot
        rw [List.length_cons]
        omega

theorem XArcLRUpart.getR_fst_capacity (p : XArcLRUpart V) (k : Nat) :
    (p.get k).1.capacity = p.capacity := by
  unfold XArcLRUpart.get
  cases alookup p.mainCache k <;> rfl

theorem XArcLRUpart.getR_length (p : XArcLRUpart V) (k : Nat) :
    (p.get k).1.mainCache.length = p.mainCache.length := by
  unfold XArcLRUpart.get
  cases hl : alookup p.mainCache k with
  | none => rfl
  | some pr =>
    simp only
    have hmem := mem_akeys_of_alookup_eq_some hl
    rw [List.length_cons, length_aerase_of_mem hmem]
    have h1 : 1 ≤ p.mainCache.length := by
      rcases hm : p.mainCache with _ | _
      · rw [hm] at hmem; simp at hmem
      · simp [hm]
    omega

theorem XArcLRUpart.checkGhostR_fst (p : XArcLRUpart V) (k : Nat) :
    (p.checkGhost k).1.capacity = p.capacity
    ∧ (p.checkGhost k).1.mainCache = p.mainCache := by
  unfold XArcLRUpart.checkGhost
  split <;> exact ⟨rfl, rfl⟩

theorem XArcLRUpart.decreaseCapacityR_fst_capacity (p : XArcLRUpart V) :
    (p.decreaseCapacity).1.capacity =
      if p.capacity = 0 then p.capacity else p.capacity - 1 := by
  unfold XArcLRUpart.decreaseCapacity
  split
  · rfl
  · simp only
    split
    · show (XArcLRUpart.evictLeastRecent p).capacity - 1 = p.capacity - 1
      rw [XArcLRUpart.evictLeastRecent_capacity]
    · rfl

theorem XArcLRUpart.decreaseCapacityR_snd (p : XArcLRUpart V) :
    (p.decreaseCapacity).2 = if p.capacity = 0 then false else true := by
  unfold XArcLRUpart.decreaseCapacity
  split <;> rfl

theorem XArcLRUpart.decreaseCapacity_size_le {p : XArcLRUpart V}
    (h : p.mainCache.length ≤ p.capacity) :
    (p.decreaseCapacity).1.mainCache.length ≤ (p.decreaseCapacity).1.capacity := by
  unfold XArcLRUpart.decreaseCapacity
  split
  · exact h
  · rename_i hc
    simp only
    split
    · rename_i hfull
      have hne : p.mainCache ≠ [] := by
        intro hnil
        rw [hnil] at hfull
        simp at hfull
        omega
      show (XArcLRUpart.evictLeastRecent p).mainCache.length ≤
        (XArcLRUpart.evictLeastRecent p).capacity - 1
      rw [XArcLRUpart.evictLeastRecent_length hne,
        XArcLRUpart.evictLeastRecent_capacity]
      omega
    · rename_i hnot
      show p.mainCache.length ≤ p.capacity - 1
      omega

theorem XArcLFUpart.evictLeastFrequentNode_capacity (p : XArcLFUpart V) :
    (p.evictLeastFrequentNode).capacity = p.capacity := by
  unfold XArcLFUpart.evictLeastFrequentNode
  split
  · rfl
  · simp only
    split <;> rfl

theorem XArcLFUpart.checkGhostF_fst (p : XArcLFUpart V) (k : Nat) :
    (p.checkGhost k).1.capacity = p.capacity
    ∧ (p.checkGhost k).1.mainCache = p.mainCache := by
  unfold XArcLFUpart.checkGhost
  split <;> exact ⟨rfl, rfl⟩

theorem XArcLFUpart.decreaseCapacityF_fst_capacity (p : XArcLFUpart V) :
    (p.decreaseCapacity).1.capacity =
      if p.capacity = 0 then p.capacity else p.capacity - 1 := by
  unfold XArcLFUpart.decreaseCapacity
  split
  · rfl
  · simp only
    split
    · show (XArcLFUpart.evictLeastFrequentNode p).capacity - 1 = p.capacity - 1
      rw [XArcLFUpart.evictLeastFrequentNode_capacity]
    · rfl

theorem XArcLFUpart.decreaseCapacityF_snd (p : XArcLFUpart V) :
    (p.decreaseCapacity).2 = if p.capacity = 0 then false else true := by
  unfold XArcLFUpart.decreaseCapacity
  split <;> rfl

end ArcLemmas

end XCache

namespace XCache

section ArcClaims

variable {V : Type}

theorem XArcLFUpart.checkGhostF_pos {p : XArcLFUpart V} {k : Nat}
    (h : k ∈ p.ghostCache) :
    p.checkGhost k = ({ p with ghostCache := kerase p.ghostCache k }, true) := by
  unfold XArcLFUpart.checkGhost
  rw [if_pos h]

theorem XArcLFUpart.checkGhostF_neg {p : XArcLFUpart V} {k : Nat}
    (h : k ∉ p.ghostCache) : p.checkGhost k = (p, false) := by
  unfold XArcLFUpart.checkGhost
  rw [if_neg h]

theorem XArcLRUpart.checkGhostR_pos {p : XArcLRUpart V} {k : Nat}
    (h : k ∈ p.ghostCache) :
    p.checkGhost k = ({ p with ghostCache := kerase p.ghostCache k }, true) := by
  unfold XArcLRUpart.checkGhost
  rw [if_pos h]

theorem XArcLRUpart.checkGhostR_neg {p : XArcLRUpart V} {k : Nat}
    (h : k ∉ p.ghostCache) : p.checkGhost k = (p, false) := by
  unfold XArcLRUpart.checkGhost
  rw [if_neg h]

theorem XArcLRUpart.decreaseCapacityR_zero {p : XArcLRUpart V}
    (hc : p.capacity = 0) : p.decreaseCapacity = (p, false) := by
  unfold XArcLRUpart.decreaseCapacity
  rw [if_pos hc]

theorem XArcLRUpart.decreaseCapacityR_pos {p : XArcLRUpart V}
    (hc : ¬ p.capacity = 0) :
    (p.decreaseCapacity).2 = true
    ∧ (p.decreaseCapacity).1.capacity = p.capacity - 1 := by
  constructor
  · rw [XArcLRUpart.decreaseCapacityR_snd, if_neg hc]
  · rw [XArcLRUpart.decreaseCapacityR_fst_capacity, if_neg hc]

theorem XArcLFUpart.decreaseCapacityF_zero {p : XArcLFUpart V}
    (hc : p.capacity = 0) : p.decreaseCapacity = (p, false) := by
  unfold XArcLFUpart.decreaseCapacity
  rw [if_pos hc]

theorem XArcLFUpart.decreaseCapacityF_pos {p : XArcLFUpart V}
    (hc : ¬ p.capacity = 0) :
    (p.decreaseCapacity).2 = true
    ∧ (p.decreaseCapacity).1.capacity = p.capacity - 1 := by
  constructor
  · rw [XArcLFUpart.decreaseCapacityF_snd, if_neg hc]
  · rw [XArcLFUpart.decreaseCapacityF_fst_capacity, if_neg hc]

theorem XArcCache.checkGhostCaches_capacity_sum (s : XArcCache V) (k : Nat) :
    (s.checkGhostCaches k).lrupart.capacity +
      (s.checkGhostCaches k).lfupart.capacity =
      s.lrupart.capacity + s.lfupart.capacity := by
  unfold XArcCache.checkGhostCaches
  by_cases hf : k ∈ s.lfupart.ghostCache
  · by_cases hc : s.lrupart.capacity = 0
    · simp [XArcLFUpart.checkGhostF_pos hf, XArcLRUpart.decreaseCapacityR_zero hc]
    · have hs := XArcLRUpart.decreaseCapacityR_pos (p := s.lrupart) hc
      simp [XArcLFUpart.checkGhostF_pos hf, hs.1, hs.2,
        XArcLFUpart.increaseCapacity]
      omega
  · by_cases hr : k ∈ s.lrupart.ghostCache
    · by_cases hc : s.lfupart.capacity = 0
      · simp [XArcLFUpart.checkGhostF_neg hf, XArcLRUpart.checkGhostR_pos hr,
          XArcLFUpart.decreaseCapacityF_zero hc]
      · have hs := XArcLFUpart.decreaseCapacityF_pos (p := s.lfupart) hc
        simp [XArcLFUpart.checkGhostF_neg hf, XArcLRUpart.checkGhostR_pos hr,
          hs.1, hs.2, XArcLRUpart.increaseCapacity]
        omega
    · simp [XArcLFUpart.checkGhostF_neg hf, XArcLRUpart.checkGhostR_neg hr]

/-- Counterexample to C2: the constructor hands the full capacity to *each*
half, so for `XArcCache(10, 2)` the two halves' capacities sum to 20, not to
the engine's total capacity 10. -/
theorem claim_C2_counterexample :
    (XArcCache.mk' 10 2 : XArcCache String).lrupart.capacity +
        (XArcCache.mk' 10 2 : XArcCache String).lfupart.capacity = 20
    ∧ (XArcCache.mk' 10 2 : XArcCache String).capacity = 10
    ∧ (20 : Nat) ≠ 10 := by
  decide

/-- C2 as amended: the two halves' capacities always sum to *twice* the
engine's total capacity: `c_R + c_F = 2C` holds after construction, and
every ghost-hit capacity shift (`checkGhostCaches`, which decrements one
half and increments the other only when the decrement succeeds) preserves
the sum `c_R + c_F`. -/
theorem claim_C2_amended :
    (∀ c t : Nat, (XArcCache.mk' c t : XArcCache V).lrupart.capacity +
        (XArcCache.mk' c t : XArcCache V).lfupart.capacity = 2 * c)
    ∧ (∀ (s : XArcCache V) (k : Nat),
        (s.checkGhostCaches k).lrupart.capacity +
          (s.checkGhostCaches k).lfupart.capacity =
          s.lrupart.capacity + s.lfupart.capacity) := by
  constructor
  · intro c t
    show c + c = 2 * c
    omega
  · exact fun s k => XArcCache.checkGhostCaches_capacity_sum s k

end ArcClaims

end XCache

namespace XCache

section CapacityLemmas

variable {K V : Type} [DecidableEq K] [Inhabited K]

theorem XWTinyLFUCache.updateStats_caches (s : XWTinyLFUCache K V)
    (h w : Bool) :
    (s.updateStats h w).windowCache = s.windowCache
    ∧ (s.updateStats h w).victimCache = s.victimCache := by
  unfold XWTinyLFUCache.updateStats
  split
  · split <;> exact ⟨rfl, rfl⟩
  · exact ⟨rfl, rfl⟩

theorem XWTinyLFUCache.evc_bounds (s : XWTinyLFUCache K V) (kw : K) (vw : V)
    (hcapV : s.victimCache.capacity = s.victimCapacity)
    (hv : s.victimCache.entries.length ≤ s.victimCapacity) :
    (s.ensureVictimCapacity kw vw).victimCache.entries.length ≤ s.victimCapacity
    ∧ (s.ensureVictimCapacity kw vw).windowCache = s.windowCache
    ∧ (s.ensureVictimCapacity kw vw).windowCapacity = s.windowCapacity
    ∧ (s.ensureVictimCapacity kw vw).victimCapacity = s.victimCapacity := by
  unfold XWTinyLFUCache.ensureVictimCapacity
  simp only
  generalize (if (s.operationCount + 1) % 1000 = 0 then s.frequencySketch.decay
    else s.frequencySketch) = sk
  split
  · refine ⟨?_, rfl, rfl, rfl⟩
    have h1 := XLRUCache.put_length_le (s := s.victimCache) kw vw
      (by rw [hcapV]; exact hv)
    rw [hcapV] at h1
    exact h1
  · split
    · rename_i v' heq
      have hfst : (s.victimCache.get s.victimCache.getOldestKey).1 = v' := by
        rw [heq]
      have hlen : v'.entries.length ≤ s.victimCapacity := by
        rw [← hfst, XLRUCache.get_length]
        exact hv
      have hcap : v'.capacity = s.victimCapacity := by
        rw [← hfst, XLRUCache.get_fst_capacity, hcapV]
      refine ⟨?_, rfl, rfl, rfl⟩
      have h1 := XLRUCache.put_length_le (s := v') kw vw (by rw [hcap]; exact hlen)
      rw [hcap] at h1
      exact h1
    · rename_i v' r heq
      have hfst : (s.victimCache.get s.victimCache.getOldestKey).1 = v' := by
        rw [heq]
      have hlen : v'.entries.length ≤ s.victimCapacity := by
        rw [← hfst, XLRUCache.get_length]
        exact hv
      have hcap : v'.capacity = s.victimCapacity := by
        rw [← hfst, XLRUCache.get_fst_capacity, hcapV]
      split
      · refine ⟨?_, rfl, rfl, rfl⟩
        have hrem_len : (v'.remove s.victimCache.getOldestKey).entries.length ≤
            s.victimCapacity :=
          le_trans (XLRUCache.remove_length_le v' _) hlen
        have hrem_cap : (v'.remove s.victimCache.getOldestKey).capacity =
            s.victimCapacity := by
          rw [XLRUCache.remove_capacity, hcap]
        have h1 := XLRUCache.put_length_le
          (s := v'.remove s.victimCache.getOldestKey) kw vw
          (by rw [hrem_cap]; exact hrem_len)
        rw [hrem_cap] at h1
        exact h1
      · exact ⟨hlen, rfl, rfl, rfl⟩

theorem XWTinyLFUCache.ewc_bounds (s : XWTinyLFUCache K V)
    (hcapV : s.victimCache.capacity = s.victimCapacity)
    (hv : s.victimCache.entries.length ≤ s.victimCapacity) :
    (s.ensureWindowCapacity).windowCache.entries.length ≤
      s.windowCache.entries.length
    ∧ (s.ensureWindowCapacity).windowCache.capacity = s.windowCache.capacity
    ∧ (s.ensureWindowCapacity).victimCache.entries.length ≤ s.victimCapacity
    ∧ (s.ensureWindowCapacity).windowCapacity = s.windowCapacity
    ∧ (s.ensureWindowCapacity).victimCapacity = s.victimCapacity := by
  unfold XWTinyLFUCache.ensureWindowCapacity
  split
  · simp only
    split
    · rename_i w' vw heq
      have hfst : (s.windowCache.get s.windowCache.getOldestKey).1 = w' := by
        rw [heq]
      have hevc := XWTinyLFUCache.evc_bounds
        { s with windowCache := w'.remove s.windowCache.getOldestKey }
        s.windowCache.getOldestKey vw hcapV hv
      refine ⟨?_, ?_, hevc.1, hevc.2.2.1, hevc.2.2.2⟩
      · rw [hevc.2.1]
        show (w'.remove s.windowCache.getOldestKey).entries.length ≤ _
        refine le_trans (XLRUCache.remove_length_le w' _) ?_
        rw [← hfst, XLRUCache.get_length]
      · rw [hevc.2.1]
        show (w'.remove s.windowCache.getOldestKey).capacity = _
        rw [XLRUCache.remove_capacity, ← hfst, XLRUCache.get_fst_capacity]
    · exact ⟨le_rfl, rfl, hv, rfl, rfl⟩
  · exact ⟨le_rfl, rfl, hv, rfl, rfl⟩

theorem XWTinyLFUCache.put_bounds (s : XWTinyLFUCache K V) (k : K) (v : V)
    (hcapW : s.windowCache.capacity = s.windowCapacity)
    (hcapV : s.victimCache.capacity = s.victimCapacity)
    (hw : s.windowCache.entries.length ≤ s.windowCapacity)
    (hv : s.victimCache.entries.length ≤ s.victimCapacity) :
    (s.put k v).windowCache.entries.length ≤ s.windowCapacity
    ∧ (s.put k v).victimCache.entries.length ≤ s.victimCapacity := by
  unfold XWTinyLFUCache.put
  split
  · exact ⟨hw, hv⟩
  · simp only
    split
    · constructor
      · have hcap1 : ((s.windowCache.get k).1).capacity = s.windowCapacity := by
          rw [XLRUCache.get_fst_capacity, hcapW]
        have hlen1 : ((s.windowCache.get k).1).entries.length ≤ s.windowCapacity := by
          rw [XLRUCache.get_length]
          exact hw
        have h1 := XLRUCache.put_length_le (s := (s.windowCache.get k).1) k v
          (by rw [hcap1]; exact hlen1)
        rw [hcap1] at h1
        exact h1
      · exact hv
    · split
      · constructor
        · rw [XLRUCache.get_length]
          exact hw
        · have hcap1 : ((s.victimCache.get k).1).capacity = s.victimCapacity := by
            rw [XLRUCache.get_fst_capacity, hcapV]
          have hlen1 : ((s.victimCache.get k).1).entries.length ≤ s.victimCapacity := by
            rw [XLRUCache.get_length]
            exact hv
          have h1 := XLRUCache.put_length_le (s := (s.victimCache.get k).1) k v
            (by rw [hcap1]; exact hlen1)
          rw [hcap1] at h1
          exact h1
      · have hewc := XWTinyLFUCache.ewc_bounds (s := { s with frequencySketch := s.frequencySketch.increment k, windowCache := (s.windowCache.get k).1, victimCache := (s.victimCache.get k).1 }) (by show ((s.victimCache.get k).1).capacity = s.victimCapacity; rw [XLRUCache.get_fst_capacity, hcapV]) (by show ((s.victimCache.get k).1).entries.length ≤ s.victimCapacity; rw [XLRUCache.get_length]; exact hv)
        constructor
        · have hcap2 : (XWTinyLFUCache.ensureWindowCapacity { s with frequencySketch := s.frequencySketch.increment k, windowCache := (s.windowCache.get k).1, victimCache := (s.victimCache.get k).1 }).windowCache.capacity = s.windowCapacity := by
            rw [hewc.2.1]
            show ((s.windowCache.get k).1).capacity = s.windowCapacity
            rw [XLRUCache.get_fst_capacity, hcapW]
          have hlen2 : (XWTinyLFUCache.ensureWindowCapacity { s with frequencySketch := s.frequencySketch.increment k, windowCache := (s.windowCache.get k).1, victimCache := (s.victimCache.get k).1 }).windowCache.entries.length ≤ s.windowCapacity := by
            refine le_trans hewc.1 ?_
            show ((s.windowCache.get k).1).entries.length ≤ s.windowCapacity
            rw [XLRUCache.get_length]
            exact hw
          have h1 := XLRUCache.put_length_le (s := (XWTinyLFUCache.ensureWindowCapacity { s with frequencySketch := s.frequencySketch.increment k, windowCache := (s.windowCache.get k).1, victimCache := (s.victimCache.get k).1 }).windowCache) k v (by rw [hcap2]; exact hlen2)
          rw [hcap2] at h1
          exact h1
        · exact hewc.2.2.1

theorem XWTinyLFUCache.get_bounds (s : XWTinyLFUCache K V) (k : K) :
    (s.get k).1.windowCache.entries.length = s.windowCache.entries.length
    ∧ (s.get k).1.victimCache.entries.length = s.victimCache.entries.length := by
  unfold XWTinyLFUCache.get
  split
  · exact ⟨rfl, rfl⟩
  · simp only
    split
    · rename_i w' v heq
      have hfst : (s.windowCache.get k).1 = w' := by rw [heq]
      have hst := XWTinyLFUCache.updateStats_caches (s := { s with frequencySketch := s.frequencySketch.increment k, windowCache := w' }) true true
      constructor
      · rw [hst.1]
        show w'.entries.length = _
        rw [← hfst, XLRUCache.get_length]
      · rw [hst.2]
    · rename_i w' heq
      have hfstw : (s.windowCache.get k).1 = w' := by rw [heq]
      split
      · rename_i v' v heq2
        have hfst : (s.victimCache.get k).1 = v' := by rw [heq2]
        have hst := XWTinyLFUCache.updateStats_caches (s := { s with frequencySketch := s.frequencySketch.increment k, windowCache := w', victimCache := v' }) true false
        constructor
        · rw [hst.1]
          show w'.entries.length = _
          rw [← hfstw, XLRUCache.get_length]
        · rw [hst.2]
          show v'.entries.length = _
          rw [← hfst, XLRUCache.get_length]
      · rename_i v' heq2
        have hfst : (s.victimCache.get k).1 = v' := by rw [heq2]
        have hst := XWTinyLFUCache.updateStats_caches (s := { s with frequencySketch := s.frequencySketch.increment k, windowCache := w', victimCache := v' }) false false
        constructor
        · rw [hst.1]
          show w'.entries.length = _
          rw [← hfstw, XLRUCache.get_length]
        · rw [hst.2]
          show v'.entries.length = _
          rw [← hfst, XLRUCache.get_length]

end CapacityLemmas

end XCache

namespace XCache

section ArcInvariance

variable {V : Type}

theorem XArcCache.checkGhostCaches_lrupart_inv (s : XArcCache V) (k : Nat)
    (h : s.lrupart.mainCache.length ≤ s.lrupart.capacity) :
    (s.checkGhostCaches k).lrupart.mainCache.length ≤
      (s.checkGhostCaches k).lrupart.capacity := by
  unfold XArcCache.checkGhostCaches
  by_cases hf : k ∈ s.lfupart.ghostCache
  · simp [XArcLFUpart.checkGhostF_pos hf]
    split
    · exact XArcLRUpart.decreaseCapacity_size_le h
    · exact XArcLRUpart.decreaseCapacity_size_le h
  · by_cases hr : k ∈ s.lrupart.ghostCache
    · simp [XArcLFUpart.checkGhostF_neg hf, XArcLRUpart.checkGhostR_pos hr]
      split
      · show s.lrupart.mainCache.length ≤ s.lrupart.capacity + 1
        omega
      · exact h
    · simp [XArcLFUpart.checkGhostF_neg hf, XArcLRUpart.checkGhostR_neg hr]
      exact h

theorem XArcCache.put_lrupart_inv (s : XArcCache V) (k : Nat) (v : V)
    (h : s.lrupart.mainCache.length ≤ s.lrupart.capacity) :
    (s.put k v).lrupart.mainCache.length ≤ (s.put k v).lrupart.capacity := by
  unfold XArcCache.put
  simp only
  have h1 := XArcCache.checkGhostCaches_lrupart_inv s k h
  split
  · show ((s.checkGhostCaches k).lrupart.put k v).mainCache.length ≤
      ((s.checkGhostCaches k).lrupart.put k v).capacity
    rw [XArcLRUpart.putR_capacity]
    exact XArcLRUpart.put_size_le k v h1
  · show ((s.checkGhostCaches k).lrupart.put k v).mainCache.length ≤
      ((s.checkGhostCaches k).lrupart.put k v).capacity
    rw [XArcLRUpart.putR_capacity]
    exact XArcLRUpart.put_size_le k v h1

theorem XArcCache.get_lrupart_inv (s : XArcCache V) (k : Nat)
    (h : s.lrupart.mainCache.length ≤ s.lrupart.capacity) :
    (s.get k).1.lrupart.mainCache.length ≤ (s.get k).1.lrupart.capacity := by
  unfold XArcCache.get
  simp only
  have h1 := XArcCache.checkGhostCaches_lrupart_inv s k h
  split
  · rename_i lru1 r heq
    have hfst : ((s.checkGhostCaches k).lrupart.get k).1 = lru1 := by rw [heq]
    split
    · show lru1.mainCache.length ≤ lru1.capacity
      rw [← hfst, XArcLRUpart.getR_length, XArcLRUpart.getR_fst_capacity]
      exact h1
    · show lru1.mainCache.length ≤ lru1.capacity
      rw [← hfst, XArcLRUpart.getR_length, XArcLRUpart.getR_fst_capacity]
      exact h1
  · rename_i lru1 heq
    have hfst : ((s.checkGhostCaches k).lrupart.get k).1 = lru1 := by rw [heq]
    show lru1.mainCache.length ≤ lru1.capacity
    rw [← hfst, XArcLRUpart.getR_length, XArcLRUpart.getR_fst_capacity]
    exact h1

end ArcInvariance

section ClaimC1

/-- Counterexample to C1: for `XArcCache(1, 2)` the single call sequence
put(1,"a"), get(1) promotes key 1 into the frequency half while the recency
half keeps it, so the engine returns from a public call holding 2 resident
value-carrying entries against a constructed capacity of 1. -/
theorem claim_C1_counterexample :
    ((((XArcCache.mk' 1 2 : XArcCache String).put 1 "a").get 1).1.residentCount = 2)
    ∧ ((XArcCache.mk' 1 2 : XArcCache String).capacity = 1)
    ∧ ¬ ((((XArcCache.mk' 1 2 : XArcCache String).put 1 "a").get 1).1.residentCount ≤
        (XArcCache.mk' 1 2 : XArcCache String).capacity) := by
  decide

/-- C1 as amended: the per-structure capacity bounds that the code does
maintain.  (a) The plain LRU engine keeps at most `capacity` entries across
put/get/remove.  (b) W-TinyLFU keeps the window sub-cache within
`windowCapacity` and the victim sub-cache within `victimCapacity` across
put/get/remove (given the constructor's wiring of the sub-cache
capacities).  (c) In ARC, the recency half keeps its main list within its
own mutable capacity across the engine's put/get.  The engine-wide bound
`residents ≤ constructed capacity` does *not* hold for ARC (see the
counterexample; each half is built with the full capacity) nor for LFU
(C9's minFreq overflow). -/
theorem claim_C1_amended :
    (∀ (K V : Type) [DecidableEq K] (s : XLRUCache K V) (k : K) (v : V),
      s.entries.length ≤ s.capacity →
      (s.put k v).entries.length ≤ (s.put k v).capacity
      ∧ (s.get k).1.entries.length ≤ (s.get k).1.capacity
      ∧ (s.remove k).entries.length ≤ (s.remove k).capacity)
    ∧ (∀ (K V : Type) [DecidableEq K] [Inhabited K]
        (s : XWTinyLFUCache K V) (k : K) (v : V),
      s.windowCache.capacity = s.windowCapacity →
      s.victimCache.capacity = s.victimCapacity →
      s.windowCache.entries.length ≤ s.windowCapacity →
      s.victimCache.entries.length ≤ s.victimCapacity →
      ((s.put k v).windowCache.entries.length ≤ s.windowCapacity
        ∧ (s.put k v).victimCache.entries.length ≤ s.victimCapacity)
      ∧ ((s.get k).1.windowCache.entries.length ≤ s.windowCapacity
        ∧ (s.get k).1.victimCache.entries.length ≤ s.victimCapacity)
      ∧ ((s.remove k).windowCache.entries.length ≤ s.windowCapacity
        ∧ (s.remove k).victimCache.entries.length ≤ s.victimCapacity))
    ∧ (∀ (W : Type) (s : XArcCache W) (k : Nat) (v : W),
      s.lrupart.mainCache.length ≤ s.lrupart.capacity →
      (s.put k v).lrupart.mainCache.length ≤ (s.put k v).lrupart.capacity
      ∧ (s.get k).1.lrupart.mainCache.length ≤ (s.get k).1.lrupart.capacity) := by
  refine ⟨?_, ?_, ?_⟩
  · intro K V _ s k v h
    refine ⟨?_, ?_, ?_⟩
    · rw [XLRUCache.put_capacity]
      exact XLRUCache.put_length_le k v h
    · rw [XLRUCache.get_fst_capacity, XLRUCache.get_length]
      exact h
    · rw [XLRUCache.remove_capacity]
      exact le_trans (XLRUCache.remove_length_le s k) h
  · intro K V _ _ s k v hcapW hcapV hw hv
    refine ⟨XWTinyLFUCache.put_bounds s k v hcapW hcapV hw hv, ?_, ?_, ?_⟩
    · have hg := XWTinyLFUCache.get_bounds s k
      rw [hg.1, hg.2]
      exact ⟨hw, hv⟩
    · exact le_trans (XLRUCache.remove_length_le s.windowCache k) hw
    · exact le_trans (XLRUCache.remove_length_le s.victimCache k) hv
  · intro W s k v h
    exact ⟨XArcCache.put_lrupart_inv s k v h, XArcCache.get_lrupart_inv s k h⟩

/-- Witness for the amended C1 at concrete states: a capacity-2 LRU holding
one entry, the `wtExample` W-TinyLFU state, and a freshly constructed
`XArcCache(2, 2)`. -/
theorem claim_C1_amended_witness :
    (((⟨2, [(1, "a")]⟩ : XLRUCache Nat String).put 2 "b").entries.length ≤
        ((⟨2, [(1, "a")]⟩ : XLRUCache Nat String).put 2 "b").capacity)
    ∧ ((wtExample.put 9 "z").windowCache.entries.length ≤ wtExample.windowCapacity)
    ∧ (((XArcCache.mk' 2 2 : XArcCache String).put 1 "a").lrupart.mainCache.length ≤
        ((XArcCache.mk' 2 2 : XArcCache String).put 1 "a").lrupart.capacity) :=
  ⟨(claim_C1_amended.1 Nat String (⟨2, [(1, "a")]⟩ : XLRUCache Nat String) 2 "b"
      (by decide)).1,
    ((claim_C1_amended.2.1 Nat String wtExample 9 "z" (by decide) (by decide)
      (by decide) (by decide)).1).1,
    (claim_C1_amended.2.2 String (XArcCache.mk' 2 2 : XArcCache String) 1 "a"
      (by decide)).1⟩

end ClaimC1

end XCache
